import Mathlib

/-!
Verification of the schema-diff and migration-generation core of the
gorm-migrate repository, shallowly embedded in Lean 4.

Embedded source files:
  * migration/diff/model_registry.go  (final snapshot: compareSchemas at
    lines 2064-2119, compareTable at 2126-2217, fieldsEqual at 2246-2284,
    normalizeDBType, normalizeDefaultValue, normalizeFieldMetadata,
    gormDefaultFields, normalizeFieldName, indexesEqual)
  * internal/migration/diff/types.go  (TableDiff and its IsEmpty)
  * internal/migration/generator/generator.go  (CreateMigration,
    topoSortTables, generateUpSQL, generateDownSQL, generateCreateTableSQL,
    generateModifyTableSQL, validateSchemaDiff, isValidColumnType,
    mapGoTypeToSQLType, quoteIdentifier)

Modelling conventions:
  * Go maps are modelled as association lists (insert-overwrites, append
    new keys at the end); iteration order of a map is modelled as the
    order of the association list.  No verified claim depends on Go's
    unspecified map iteration order.
  * Go pointers that the code dereferences unconditionally are modelled as
    plain values (for example TableDiff.Schema); pointers the code checks
    against nil are modelled as Option (Relationship.Field,
    Relationship.Schema, Generator.SchemaDiff).
  * GORM's Schema.ParseIndexes() is an external deterministic function of
    the schema value; its result is stored as the field parsedIndexes.
  * The DFS in topoSortTables terminates in Go because the visiting set
    grows along every recursion chain; the Lean embedding makes this
    explicit with a fuel parameter whose chosen value (number of tables
    plus one) is provably never exhausted.
-/

set_option maxHeartbeats 1000000

namespace GormMigrate

/-- Association list with string keys, modelling a Go map. -/
abbrev AList (α : Type) : Type := List (String × α)

/-- Go map assignment: overwrite the entry if the key is present, else append. -/
def alistInsert {α : Type} (m : AList α) (k : String) (v : α) : AList α :=
  if (List.map Prod.fst m).contains k then
    List.map (fun p => if p.1 == k then (k, v) else p) m
  else
    m ++ [(k, v)]

/-- Go map read. -/
def alistLookup {α : Type} (m : AList α) (k : String) : Option α :=
  match List.find? (fun p => p.1 == k) m with
  | some p => some p.2
  | none => none

/-- The keys of an association list, in order. -/
def alistKeys {α : Type} (m : AList α) : List String :=
  List.map Prod.fst m

/-- Models gorm.io/gorm/schema.Field restricted to the components that
normalizeFieldMetadata (model_registry.go) copies, which are exactly the
components consulted anywhere in the embedded code. -/
structure Field where
  name : String
  dbName : String
  dataType : String
  gormDataType : String
  primaryKey : Bool
  autoIncrement : Bool
  notNull : Bool
  unique : Bool
  defaultValue : String
  size : Int
  precision : Int
  scale : Int
  comment : String
  ignoreMigration : Bool
deriving DecidableEq, Repr

/-- Models gorm.io/gorm/schema.Index: the code consults Name, Option and the
DBName of each entry of Fields, so the field list is kept as DB names. -/
structure Index where
  name : String
  option : String
  fieldDBNames : List String
deriving DecidableEq, Repr

/-- The target of a Relationship's Schema pointer; only its Table is read. -/
structure RelSchema where
  table : String
deriving DecidableEq, Repr

/-- Models gorm.io/gorm/schema.Relationship as used by the generator:
Field and Schema are pointers that the code nil-checks, hence Option. -/
structure Relationship where
  name : String
  field : Option Field
  schemaRef : Option RelSchema
deriving DecidableEq, Repr

/-- Models a table schema (gorm.io/gorm/schema.Schema) as consumed by the
diff code: name, fields, the result of ParseIndexes(), and relationships
(carried but never read by the final-snapshot compareTable). -/
structure Schema where
  table : String
  fields : List Field
  parsedIndexes : List Index
  relationships : List Relationship
deriving DecidableEq, Repr

/-- ColumnRename from the diff types. -/
structure ColumnRename where
  oldName : String
  newName : String
deriving DecidableEq, Repr

/-- TableRename from the diff types. -/
structure TableRename where
  oldName : String
  newName : String
deriving DecidableEq, Repr

/-- TableDiff (internal/migration/diff/types.go lines 17-28): the target
schema plus the per-table operation lists. -/
structure TableDiff where
  schema : Schema
  fieldsToAdd : List Field
  fieldsToDrop : List Field
  fieldsToModify : List Field
  fieldsToRename : List ColumnRename
  indexesToAdd : List Index
  indexesToDrop : List Index
  indexesToModify : List Index
  foreignKeysToAdd : List Relationship
  foreignKeysToDrop : List Relationship
deriving DecidableEq, Repr

/-- IsEmpty (internal/migration/diff/types.go lines 31-39).  The source
checks exactly seven of the nine operation lists: FieldsToRename and
IndexesToModify are not consulted. -/
def TableDiff.IsEmpty (d : TableDiff) : Bool :=
  d.fieldsToAdd.isEmpty &&
  d.fieldsToModify.isEmpty &&
  d.fieldsToDrop.isEmpty &&
  d.indexesToAdd.isEmpty &&
  d.indexesToDrop.isEmpty &&
  d.foreignKeysToAdd.isEmpty &&
  d.foreignKeysToDrop.isEmpty

/-- SchemaDiff (internal/migration/diff/types.go lines 9-14). -/
structure SchemaDiff where
  tablesToCreate : List TableDiff
  tablesToDrop : List String
  tablesToModify : List TableDiff
  tablesToRename : List TableRename
deriving DecidableEq, Repr

/- ------------------------------------------------------------------
   Schema differencer: migration/diff/model_registry.go, final snapshot
   ------------------------------------------------------------------ -/

/-- strings.ToLower, character-wise. -/
def strToLower (s : String) : String :=
  String.mk (s.data.map Char.toLower)

/-- strings.ToUpper, character-wise. -/
def strToUpper (s : String) : String :=
  String.mk (s.data.map Char.toUpper)

/-- strings.TrimSpace: remove leading and trailing whitespace. -/
def strTrim (s : String) : String :=
  String.mk (((s.data.dropWhile Char.isWhitespace).reverse.dropWhile
    Char.isWhitespace).reverse)

/-- normalizeTableName (model_registry.go line 2059). -/
def normalizeTableName (name : String) : String :=
  strToLower name

/-- Single-quote and double-quote characters (code points 39 and 34),
the cut set of strings.Trim in normalizeDefaultValue. -/
def isQuoteChar (c : Char) : Bool :=
  c == Char.ofNat 39 || c == Char.ofNat 34

/-- strings.Trim with the quote cut set: remove leading and trailing quotes. -/
def trimQuotes (s : String) : String :=
  String.mk (((s.data.dropWhile isQuoteChar).reverse.dropWhile isQuoteChar).reverse)

/-- strings.HasPrefix, character-wise. -/
def strHasPre (p s : String) : Bool :=
  decide (s.data.take p.data.length = p.data)

/-- normalizeDBType (model_registry.go lines 2287-2311). -/
def normalizeDBType (dt : String) : String :=
  let dtStr := strToLower dt
  if dtStr == "int" || dtStr == "int32" || dtStr == "int4" || dtStr == "int64" ||
     dtStr == "int8" || dtStr == "uint" || dtStr == "bigint" then
    "bigint"
  else if dtStr == "float64" || dtStr == "float32" || dtStr == "float" ||
     dtStr == "real" || dtStr == "numeric" || dtStr == "decimal" ||
     strHasPre "decimal(" dtStr || dtStr == "float8" || dtStr == "double precision" then
    "decimal"
  else if dtStr == "string" || dtStr == "varchar" || dtStr == "text" ||
     dtStr == "character varying" then
    "varchar"
  else if dtStr == "bool" || dtStr == "boolean" then
    "boolean"
  else if dtStr == "time" || dtStr == "timestamp" ||
     dtStr == "timestamp without time zone" || dtStr == "timestamp with time zone" then
    "timestamp"
  else if dtStr == "json" || dtStr == "jsonb" then
    "jsonb"
  else
    dtStr

/-- normalizeDefaultValue (model_registry.go lines 2314-2341). -/
def normalizeDefaultValue (dv : String) : String :=
  if dv == "" then ""
  else
    let dv1 := strToLower (trimQuotes dv)
    if strHasPre "nextval" dv1 then "auto_increment"
    else if dv1 == "null" || dv1 == "default null" then ""
    else if dv1 == "true" || dv1 == "false" then dv1
    else if dv1 == "0" || dv1 == "0.0" then "0"
    else if dv1 == "now()" || dv1 == "current_timestamp" || dv1 == "current_timestamp()" then
      "current_timestamp"
    else dv1

/-- fieldsEqual (model_registry.go lines 2247-2284).  strings.EqualFold is
modelled as equality of lower-cased names. -/
def fieldsEqual (a b : Field) : Bool :=
  (strToLower a.dbName == strToLower b.dbName) &&
  (normalizeDBType a.dataType == normalizeDBType b.dataType) &&
  (a.primaryKey == b.primaryKey) &&
  (a.unique == b.unique) &&
  (normalizeDefaultValue a.defaultValue == normalizeDefaultValue b.defaultValue) &&
  (a.autoIncrement == b.autoIncrement) &&
  !(!a.primaryKey && (a.notNull != b.notNull))

/-- normalizeFieldMetadata (model_registry.go lines 2220-2244): copies the
schema-relevant components of a field.  The Lean Field carries exactly
those components, so the copy is a field-by-field rebuild. -/
def normalizeFieldMetadata (f : Field) : Field :=
  { name := f.name
    dbName := f.dbName
    dataType := f.dataType
    gormDataType := f.gormDataType
    primaryKey := f.primaryKey
    autoIncrement := f.autoIncrement
    notNull := f.notNull
    unique := f.unique
    defaultValue := f.defaultValue
    size := f.size
    precision := f.precision
    scale := f.scale
    comment := f.comment
    ignoreMigration := f.ignoreMigration }

/-- indexesEqual (model_registry.go lines 2377-2387): same name, same
option, and the same DB names position by position. -/
def indexesEqual (a b : Index) : Bool :=
  a.name == b.name && a.option == b.option && a.fieldDBNames == b.fieldDBNames

/-- gormDefaultFields (model_registry.go lines 2442-2449). -/
def gormDefaultFields : List Field :=
  [ { name := "ID", dbName := "id", dataType := "uint", gormDataType := ""
      primaryKey := true, autoIncrement := true, notNull := false, unique := false
      defaultValue := "", size := 0, precision := 0, scale := 0, comment := ""
      ignoreMigration := true }
  , { name := "CreatedAt", dbName := "created_at", dataType := "time", gormDataType := ""
      primaryKey := false, autoIncrement := false, notNull := false, unique := false
      defaultValue := "", size := 0, precision := 0, scale := 0, comment := ""
      ignoreMigration := true }
  , { name := "UpdatedAt", dbName := "updated_at", dataType := "time", gormDataType := ""
      primaryKey := false, autoIncrement := false, notNull := false, unique := false
      defaultValue := "", size := 0, precision := 0, scale := 0, comment := ""
      ignoreMigration := true }
  , { name := "DeletedAt", dbName := "deleted_at", dataType := "time", gormDataType := ""
      primaryKey := false, autoIncrement := false, notNull := false, unique := false
      defaultValue := "", size := 0, precision := 0, scale := 0, comment := ""
      ignoreMigration := true } ]

/-- normalizeFieldName (model_registry.go lines 2452-2465): put an
underscore before every interior upper-case letter and lower-case it. -/
def normalizeFieldNameAux : Nat → List Char → List Char
  | _, [] => []
  | i, c :: cs =>
    (if c.isUpper then
       (if i > 0 then [Char.ofNat 95, c.toLower] else [c.toLower])
     else [c]) ++ normalizeFieldNameAux (i + 1) cs

/-- normalizeFieldName (model_registry.go lines 2452-2465). -/
def normalizeFieldName (name : String) : String :=
  String.mk (normalizeFieldNameAux 0 name.data)

/-- The field maps of compareTable: keyed by DBName, values normalized. -/
def buildFieldMap : List Field → AList Field → AList Field
  | [], acc => acc
  | f :: rest, acc => buildFieldMap rest (alistInsert acc f.dbName (normalizeFieldMetadata f))

/-- Set IgnoreMigration on the entry at a key, if present (the in-place
map mutation in compareTable lines 2151-2158). -/
def alistSetIgnore (m : AList Field) (k : String) : AList Field :=
  match alistLookup m k with
  | none => m
  | some _ =>
      List.map (fun p => if p.1 == k then (p.1, { p.2 with ignoreMigration := true }) else p) m

/-- Mark the four gorm.Model default fields as IgnoreMigration
(compareTable lines 2151-2158). -/
def markGormDefaults (m : AList Field) : AList Field :=
  List.foldl (fun acc f => alistSetIgnore acc (normalizeFieldName f.dbName)) m gormDefaultFields

/-- The adds-and-modifies loop of compareTable (lines 2160-2177): walk the
target map, skipping ignored and unnamed fields; absent from current means
add, present but not fieldsEqual means modify. -/
def collectFieldAddsMods (cf : AList Field) : AList Field → List Field × List Field
  | [] => ([], [])
  | (k, f) :: rest =>
    let acc := collectFieldAddsMods cf rest
    if f.ignoreMigration || f.dbName == "" then acc
    else
      match alistLookup cf k with
      | none => (f :: acc.1, acc.2)
      | some cfld => if fieldsEqual cfld f then acc else (acc.1, f :: acc.2)

/-- The drops loop of compareTable (lines 2178-2189). -/
def collectFieldDrops (tf : AList Field) : AList Field → List Field
  | [] => []
  | (k, f) :: rest =>
    if f.ignoreMigration then collectFieldDrops tf rest
    else
      match alistLookup tf k with
      | none => f :: collectFieldDrops tf rest
      | some _ => collectFieldDrops tf rest

/-- The index maps of compareTable, keyed by index name. -/
def buildIndexMap : List Index → AList Index → AList Index
  | [], acc => acc
  | i :: rest, acc => buildIndexMap rest (alistInsert acc i.name i)

/-- The index adds-and-modifies loop of compareTable (lines 2201-2207). -/
def collectIndexAddsMods (ci : AList Index) : AList Index → List Index × List Index
  | [] => ([], [])
  | (k, idx) :: rest =>
    let acc := collectIndexAddsMods ci rest
    match alistLookup ci k with
    | none => (idx :: acc.1, acc.2)
    | some cidx => if indexesEqual cidx idx then acc else (acc.1, idx :: acc.2)

/-- The index drops loop of compareTable (lines 2208-2212). -/
def collectIndexDrops (ti : AList Index) : AList Index → List Index
  | [] => []
  | (k, idx) :: rest =>
    match alistLookup ti k with
    | none => idx :: collectIndexDrops ti rest
    | some _ => collectIndexDrops ti rest

/-- compareTable (model_registry.go lines 2127-2217).  Index comparison is
performed only when current.Fields is empty; foreign-key lists are never
populated; FieldsToRename is never populated. -/
def compareTable (current target : Schema) : TableDiff :=
  let currentFields := markGormDefaults (buildFieldMap current.fields [])
  let targetFields := markGormDefaults (buildFieldMap target.fields [])
  let addsMods := collectFieldAddsMods currentFields targetFields
  let drops := collectFieldDrops targetFields currentFields
  let idx :=
    if current.fields.isEmpty then
      let currentIndexes := buildIndexMap current.parsedIndexes []
      let targetIndexes := buildIndexMap target.parsedIndexes []
      let iam := collectIndexAddsMods currentIndexes targetIndexes
      (iam.1, iam.2, collectIndexDrops targetIndexes currentIndexes)
    else
      ([], [], [])
  { schema := target
    fieldsToAdd := addsMods.1
    fieldsToDrop := drops
    fieldsToModify := addsMods.2
    fieldsToRename := []
    indexesToAdd := idx.1
    indexesToDrop := idx.2.2
    indexesToModify := idx.2.1
    foreignKeysToAdd := []
    foreignKeysToDrop := [] }

/-- The empty current schema used for brand-new tables
(compareSchemas lines 2089-2093); ParseIndexes of a schema without fields
yields no indexes. -/
def emptySchemaOf (s : Schema) : Schema :=
  { table := s.table, fields := [], parsedIndexes := [], relationships := [] }

/-- The case-insensitive name maps of compareSchemas (lines 2073-2081). -/
def buildNormMap : List (String × Schema) → AList Schema → AList Schema
  | [], acc => acc
  | (n, s) :: rest, acc => buildNormMap rest (alistInsert acc (normalizeTableName n) s)

/-- The creates-and-modifies loop of compareSchemas (lines 2084-2103). -/
def collectCreatesMods (nc : AList Schema) : AList Schema → List TableDiff × List TableDiff
  | [] => ([], [])
  | (k, tgt) :: rest =>
    let acc := collectCreatesMods nc rest
    match alistLookup nc k with
    | none => (compareTable (emptySchemaOf tgt) tgt :: acc.1, acc.2)
    | some cur =>
      let d := compareTable cur tgt
      if d.IsEmpty then acc else (acc.1, d :: acc.2)

/-- The drops loop of compareSchemas (lines 2106-2116): for every current
key absent from the target, record the first original name normalizing to
it. -/
def collectTableDrops (current : List (String × Schema)) (nt : AList Schema) :
    AList Schema → List String
  | [] => []
  | (k, _) :: rest =>
    match alistLookup nt k with
    | some _ => collectTableDrops current nt rest
    | none =>
      match List.find? (fun q => normalizeTableName q.1 == k) current with
      | some q => q.1 :: collectTableDrops current nt rest
      | none => collectTableDrops current nt rest

/-- compareSchemas (model_registry.go lines 2064-2119).  The Go function
also returns an error value that is always nil. -/
def compareSchemas (current target : List (String × Schema)) : SchemaDiff :=
  let normalizedCurrent := buildNormMap current []
  let normalizedTarget := buildNormMap target []
  let cm := collectCreatesMods normalizedCurrent normalizedTarget
  { tablesToCreate := cm.1
    tablesToDrop := collectTableDrops current normalizedTarget normalizedCurrent
    tablesToModify := cm.2
    tablesToRename := [] }

/- ------------------------------------------------------------------
   Migration generator: internal/migration/generator/generator.go
   ------------------------------------------------------------------ -/

/-- quoteIdentifier (generator.go lines 737-739). -/
def quoteIdentifier (name : String) : String :=
  "\"" ++ name ++ "\""

/-- mapGoTypeToSQLType (generator.go lines 299-318). -/
def mapGoTypeToSQLType (goType : String) : String :=
  if goType == "time" then "timestamp"
  else if goType == "string" then "varchar(255)"
  else if goType == "int" then "integer"
  else if goType == "uint" then "bigint"
  else if goType == "float" then "double precision"
  else if goType == "bool" then "boolean"
  else if goType == "json" then "jsonb"
  else goType

/-- mapGoTypeToSQLTypeWithAutoIncrement (generator.go lines 321-335). -/
def mapGoTypeToSQLTypeWithAutoIncrement (goType : String) (isPrimaryKey : Bool) : String :=
  if isPrimaryKey && goType == "uint" then "BIGSERIAL"
  else if isPrimaryKey && goType == "int" then "SERIAL"
  else mapGoTypeToSQLType goType

/-- The idx_idx_ prefix fixup applied to index names in the generator:
strings.Replace(name, "idx_idx_", "idx_", 1) under a HasPrefix guard, so
the first occurrence is the prefix itself ("idx_idx_" is 8 characters). -/
def fixIdxName (n : String) : String :=
  if strHasPre "idx_idx_" n then "idx_" ++ n.drop 8 else n

/-- One column line of generateCreateTableSQL (generator.go lines 487-501). -/
def createColumnLine (col : Field) : String :=
  let sqlType := mapGoTypeToSQLTypeWithAutoIncrement col.dataType col.primaryKey
  let d0 := col.dbName ++ " " ++ sqlType
  let d1 := if col.notNull then d0 ++ " NOT NULL" else d0
  let d2 := if col.primaryKey then d1 ++ " PRIMARY KEY" else d1
  let d3 := if !col.primaryKey && col.defaultValue != "" then
              d2 ++ " DEFAULT " ++ col.defaultValue
            else d2
  "    " ++ d3

/-- One foreign-key constraint line of generateCreateTableSQL
(generator.go lines 504-513); emitted only when both pointers are non-nil. -/
def createFKLine (tableName : String) (fk : Relationship) : Option String :=
  match fk.field, fk.schemaRef with
  | some f, some s =>
    some ("    CONSTRAINT fk_" ++ tableName ++ "_" ++ f.dbName ++ "_fkey FOREIGN KEY (" ++
          quoteIdentifier f.dbName ++ ") REFERENCES " ++ quoteIdentifier s.table ++
          "(id) ON DELETE CASCADE")
  | _, _ => none

/-- The per-index output of generateCreateTableSQL (lines 516-533):
unique indexes become inline constraint lines, others become separate
CREATE INDEX statements. -/
def createIndexPart (tableName : String) (idx : Index) : Sum String String :=
  let idxName := fixIdxName idx.name
  let fieldNames := String.intercalate ", " (idx.fieldDBNames.map quoteIdentifier)
  if strToUpper idx.option == "UNIQUE" then
    Sum.inl ("    CONSTRAINT " ++ idxName ++ " UNIQUE (" ++ fieldNames ++ ")")
  else
    Sum.inr ("CREATE INDEX " ++ idxName ++ " ON " ++ quoteIdentifier tableName ++
             " (" ++ fieldNames ++ ");")

/-- generateCreateTableSQL (generator.go lines 481-553). -/
def generateCreateTableSQL (table : TableDiff) : String :=
  let columns := table.fieldsToAdd.map createColumnLine
  let fkLines := table.foreignKeysToAdd.filterMap (createFKLine table.schema.table)
  let idxParts := table.indexesToAdd.map (createIndexPart table.schema.table)
  let uniqueLines := idxParts.filterMap (fun p => match p with | Sum.inl l => some l | _ => none)
  let indexSQLs := idxParts.filterMap (fun p => match p with | Sum.inr l => some l | _ => none)
  let allLines := columns ++ fkLines ++ uniqueLines
  let nonEmptyLines := allLines.filter
    (fun line => strTrim line != "" && !(strHasPre "DEFAULT NULL" (strTrim line)))
  let createTableSQL := "CREATE TABLE " ++ quoteIdentifier table.schema.table ++ " (\n" ++
    String.intercalate ",\n" nonEmptyLines ++ "\n);"
  String.intercalate "\n" (createTableSQL :: indexSQLs)

/-- generateModifyTableSQL (generator.go lines 566-636). -/
def generateModifyTableSQL (table : TableDiff) : List String :=
  let q := quoteIdentifier table.schema.table
  let addStmts := table.fieldsToAdd.map (fun col =>
    let sqlType := mapGoTypeToSQLTypeWithAutoIncrement col.dataType col.primaryKey
    let d0 := quoteIdentifier col.dbName ++ " " ++ sqlType
    let d1 := if col.notNull then d0 ++ " NOT NULL" else d0
    let d2 := if col.defaultValue != "" then d1 ++ " DEFAULT " ++ col.defaultValue else d1
    "ALTER TABLE " ++ q ++ " ADD COLUMN " ++ d2 ++ ";")
  let dropStmts := table.fieldsToDrop.map (fun col =>
    "ALTER TABLE " ++ q ++ " DROP COLUMN " ++ quoteIdentifier col.dbName ++ ";")
  let modifyStmts := table.fieldsToModify.map (fun col =>
    let sqlType := mapGoTypeToSQLTypeWithAutoIncrement col.dataType col.primaryKey
    let d0 := quoteIdentifier col.dbName ++ " " ++ sqlType
    let d1 := if col.notNull then d0 ++ " NOT NULL" else d0
    let d2 := if col.defaultValue != "" then d1 ++ " DEFAULT " ++ col.defaultValue else d1
    "ALTER TABLE " ++ q ++ " ALTER COLUMN " ++ d2 ++ ";")
  let fkStmts := table.foreignKeysToAdd.filterMap (fun fk =>
    match fk.field, fk.schemaRef with
    | some f, some s =>
      some ("ALTER TABLE " ++ q ++ " ADD CONSTRAINT fk_" ++ table.schema.table ++ "_" ++
            f.dbName ++ "_fkey FOREIGN KEY (" ++ quoteIdentifier f.dbName ++
            ") REFERENCES " ++ quoteIdentifier s.table ++ "(id) ON DELETE CASCADE;")
    | _, _ => none)
  let idxStmts := table.indexesToAdd.map (fun idx =>
    let idxName := fixIdxName idx.name
    let fieldNames := String.intercalate ", " (idx.fieldDBNames.map quoteIdentifier)
    if strToUpper idx.option == "UNIQUE" then
      "CREATE UNIQUE INDEX " ++ idxName ++ " ON " ++ q ++ " (" ++ fieldNames ++ ");"
    else
      "CREATE INDEX " ++ idxName ++ " ON " ++ q ++ " (" ++ fieldNames ++ ");")
  addStmts ++ dropStmts ++ modifyStmts ++ fkStmts ++ idxStmts

/- Topological sort (generator.go lines 361-400). -/

/-- The foreign-key targets that impose an ordering constraint on a table:
non-empty referenced table names other than the table itself
(generator.go lines 382-388).  A nil fk.Schema pointer would make the Go
code panic; the model skips such entries, and the topological-sort
theorems assume they are absent. -/
def depTargets (t : TableDiff) : List String :=
  t.foreignKeysToAdd.filterMap (fun fk =>
    match fk.schemaRef with
    | some s => if s.table != "" && s.table != t.schema.table then some s.table else none
    | none => none)

/-- tableMap of topoSortTables (lines 362-365): name to diff, last wins. -/
def buildTableMap : List TableDiff → AList TableDiff → AList TableDiff
  | [], acc => acc
  | t :: rest, acc => buildTableMap rest (alistInsert acc t.schema.table t)

/-- The mutable state of the DFS in topoSortTables: the visited and
visiting marker maps and the output list. -/
structure TopoState where
  visited : List String
  visiting : List String
  sorted : List TableDiff
deriving DecidableEq, Repr

/-- Sequential visiting of a list of names, aborting on the first error:
both the for-loop over a node's foreign keys (lines 382-388) and the
top-level loop (lines 394-398) have this shape. -/
def visitDepsOf (visitOne : String → TopoState → Except String TopoState) :
    List String → TopoState → Except String TopoState
  | [], st => Except.ok st
  | d :: ds, st =>
    match visitOne d st with
    | Except.error e => Except.error e
    | Except.ok st1 => visitDepsOf visitOne ds st1

/-- The recursive visit closure of topoSortTables (lines 370-393).  The
fuel argument makes the recursion structural; the out-of-fuel branch is
unreachable for the fuel used by topoSortTables (the visiting list grows
by a fresh key on every nested call). -/
def visitFuel (tm : AList TableDiff) : Nat → String → TopoState → Except String TopoState
  | 0, _, _ => Except.error "out of fuel"
  | Nat.succ f, name, st =>
    if name ∈ st.visited then Except.ok st
    else if name ∈ st.visiting then
      Except.error ("circular dependency detected at table " ++ name)
    else
      let st1 : TopoState := { st with visiting := name :: st.visiting }
      match alistLookup tm name with
      | none => Except.error ("table " ++ name ++ " not found")
      | some t =>
        match visitDepsOf (visitFuel tm f) (depTargets t) st1 with
        | Except.error e => Except.error e
        | Except.ok st2 =>
          Except.ok { visited := name :: st2.visited
                      visiting := st2.visiting.erase name
                      sorted := st2.sorted ++ [t] }

/-- topoSortTables (generator.go lines 361-400). -/
def topoSortTables (tables : List TableDiff) : Except String (List TableDiff) :=
  let tm := buildTableMap tables []
  match visitDepsOf (visitFuel tm (tables.length + 1))
      (tables.map (fun t => t.schema.table)) ⟨[], [], []⟩ with
  | Except.error e => Except.error e
  | Except.ok st => Except.ok st.sorted

/-- The statement list built by generateUpSQL (generator.go lines 403-427)
before it is joined with newlines. -/
def generateUpSQLStmts (d : SchemaDiff) : Except String (List String) :=
  match topoSortTables d.tablesToCreate with
  | Except.error e => Except.error e
  | Except.ok sorted =>
    Except.ok (sorted.map generateCreateTableSQL ++
               d.tablesToModify.flatMap generateModifyTableSQL)

/-- generateUpSQL (generator.go lines 403-427): nil diff yields the empty
string with no error. -/
def generateUpSQL (schemaDiff : Option SchemaDiff) : Except String String :=
  match schemaDiff with
  | none => Except.ok ""
  | some d =>
    match generateUpSQLStmts d with
    | Except.error e => Except.error e
    | Except.ok stmts => Except.ok (String.intercalate "\n" stmts)

/-- The DROP INDEX statements of generateDownSQL (lines 438-446). -/
def downIndexDropStmts (d : SchemaDiff) : List String :=
  d.tablesToModify.flatMap (fun t =>
    t.indexesToAdd.map (fun idx => "DROP INDEX IF EXISTS " ++ fixIdxName idx.name ++ ";"))

/-- The DROP CONSTRAINT statements of generateDownSQL (lines 449-458). -/
def downFKDropStmts (d : SchemaDiff) : List String :=
  d.tablesToModify.flatMap (fun t =>
    t.foreignKeysToAdd.filterMap (fun fk =>
      match fk.field with
      | some f =>
        some ("ALTER TABLE " ++ quoteIdentifier t.schema.table ++
              " DROP CONSTRAINT IF EXISTS fk_" ++ t.schema.table ++ "_" ++ f.dbName ++ "_fkey;")
      | none => none))

/-- The reverse-index DROP TABLE loop of generateDownSQL (lines 465-467
and 471-474): emit the drop of the last element first. -/
def reverseDropStmts : List TableDiff → List String
  | [] => []
  | t :: ts => reverseDropStmts ts ++
      ["DROP TABLE IF EXISTS " ++ quoteIdentifier t.schema.table ++ ";"]

/-- The statement list built by generateDownSQL (generator.go lines
430-478) before it is joined with newlines: index drops, then foreign-key
constraint drops, then table drops in reverse topological order (falling
back to the reverse of the input order if the sort fails). -/
def generateDownSQLStmts (d : SchemaDiff) : List String :=
  downIndexDropStmts d ++ downFKDropStmts d ++
  (match topoSortTables d.tablesToCreate with
   | Except.error _ => reverseDropStmts d.tablesToCreate
   | Except.ok sorted => reverseDropStmts sorted)

/-- generateDownSQL (generator.go lines 430-478): nil diff yields "". -/
def generateDownSQL (schemaDiff : Option SchemaDiff) : String :=
  match schemaDiff with
  | none => ""
  | some d => String.intercalate "\n" (generateDownSQLStmts d)

/- Validation (generator.go lines 638-734). -/

/-- The alphabetic-or-underscore character class of the type regular
expression in isValidColumnType. -/
def isTypeChar (c : Char) : Bool :=
  c.isAlpha || c == Char.ofNat 95

/-- The valid base types of isValidColumnType (generator.go lines 704-722). -/
def validTypeNames : List String :=
  ["int", "integer", "bigint", "uint", "string", "text", "varchar", "bool",
   "boolean", "float", "float64", "decimal", "time", "timestamp", "json",
   "jsonb", "uuid"]

/-- isValidColumnType (generator.go lines 703-734): the type must be a
non-empty run of letters or underscores, optionally followed by a
parenthesized suffix, whose lower-cased base is a known type. -/
def isValidColumnType (columnType : String) : Bool :=
  let base := columnType.data.takeWhile isTypeChar
  let rest := columnType.data.dropWhile isTypeChar
  if base.isEmpty then false
  else if !rest.isEmpty &&
          !(rest.head? == some (Char.ofNat 40) && rest.getLast? == some (Char.ofNat 41)) then false
  else validTypeNames.contains (strToLower (String.mk base))

/-- The per-table column loop of validateSchemaDiff (lines 661-678),
threading the set of seen column names. -/
def validateColumns (tname : String) : List Field → List String → Except String (List String)
  | [], seen => Except.ok seen
  | c :: cs, seen =>
    if c.dbName == "" then
      Except.error ("column name cannot be empty in table " ++ tname)
    else if seen.contains c.dbName then
      Except.error ("duplicate column name " ++ c.dbName ++ " in table " ++ tname)
    else if !(isValidColumnType c.dataType) then
      Except.error ("unsupported column type " ++ c.dataType ++ " for column " ++
                    c.dbName ++ " in table " ++ tname)
    else validateColumns tname cs (c.dbName :: seen)

/-- The foreign-key loop of validateSchemaDiff (lines 681-687): a nil
Field pointer is skipped; otherwise the owning column must be among the
table's added columns. -/
def validateFKs (tname : String) : List Relationship → List String → Except String Unit
  | [], _ => Except.ok ()
  | fk :: fks, seen =>
    match fk.field with
    | none => validateFKs tname fks seen
    | some f =>
      if !(seen.contains f.dbName) then
        Except.error ("foreign key column " ++ f.dbName ++ " does not exist in table " ++ tname)
      else validateFKs tname fks seen

/-- The index loop of validateSchemaDiff (lines 690-697). -/
def validateIndexes (tname : String) : List Index → List String → Except String Unit
  | [], _ => Except.ok ()
  | idx :: idxs, seen =>
    match idx.fieldDBNames.find? (fun col => !(seen.contains col)) with
    | some col =>
      Except.error ("index references non-existent column " ++ col ++ " in table " ++ tname)
    | none => validateIndexes tname idxs seen

/-- Validation of one table-to-create (the body of the loop at lines
652-698): empty-name check, then columns, then foreign keys, then indexes. -/
def validateTableCreate (t : TableDiff) : Except String Unit :=
  if t.schema.table == "" then Except.error "table name cannot be empty"
  else
    match validateColumns t.schema.table t.fieldsToAdd [] with
    | Except.error e => Except.error e
    | Except.ok seen =>
      match validateFKs t.schema.table t.foreignKeysToAdd seen with
      | Except.error e => Except.error e
      | Except.ok _ => validateIndexes t.schema.table t.indexesToAdd seen

/-- The loop of validateSchemaDiff over tables-to-create. -/
def validateTables : List TableDiff → Except String Unit
  | [] => Except.ok ()
  | t :: ts =>
    match validateTableCreate t with
    | Except.error e => Except.error e
    | Except.ok _ => validateTables ts

/-- validateSchemaDiff (generator.go lines 638-701): nil check, then the
tables-to-create loop.  (The tableNames map built at lines 644-647 is
never read afterwards and is omitted.)  Nothing outside TablesToCreate is
inspected. -/
def validateSchemaDiff (d : Option SchemaDiff) : Except String Unit :=
  match d with
  | none => Except.error "schema diff cannot be nil"
  | some diff => validateTables diff.tablesToCreate

/-- The no-changes guard of CreateMigration (lines 39-52): some list of
creates, drops or renames is non-empty, or some modify-diff is non-empty. -/
def hasChanges (d : SchemaDiff) : Bool :=
  !d.tablesToCreate.isEmpty || !d.tablesToDrop.isEmpty || !d.tablesToRename.isEmpty ||
  d.tablesToModify.any (fun t => !t.IsEmpty)

/-- The Generator (generator.go lines 15-18); SchemaDiff is a pointer. -/
structure Generator where
  migrationsDir : String
  schemaDiff : Option SchemaDiff
deriving DecidableEq, Repr

/-- The result of a successful CreateMigration, reduced to its pure
content: the migration name and the generated up and down SQL.  File
naming, timestamps and file-system writes are I/O effects outside the
scope of the embedding; an error return means no file is written. -/
structure MigrationFile where
  name : String
  upSQL : String
  downSQL : String
deriving DecidableEq, Repr

/-- CreateMigration (generator.go lines 33-112): nil-diff check, then the
no-changes guard, then validation, then up-SQL generation (whose
topological sort may fail), then down-SQL generation; only after all of
these does the Go code write the migration file. -/
def createMigration (g : Generator) (name : String) : Except String MigrationFile :=
  match g.schemaDiff with
  | none => Except.error "schema diff not set"
  | some d =>
    if !hasChanges d then Except.error "no schema changes detected"
    else
      match validateSchemaDiff (some d) with
      | Except.error e => Except.error ("invalid schema diff: " ++ e)
      | Except.ok _ =>
        match generateUpSQLStmts d with
        | Except.error e => Except.error e
        | Except.ok upStmts =>
          Except.ok { name := name
                      upSQL := String.intercalate "\n" upStmts
                      downSQL := String.intercalate "\n" (generateDownSQLStmts d) }

/- ------------------------------------------------------------------
   Concrete example inputs used by witnesses and counterexamples
   ------------------------------------------------------------------ -/

/-- A column value with every flag off; examples override what they need. -/
def plainField (nm db ty : String) : Field :=
  { name := nm, dbName := db, dataType := ty, gormDataType := ""
    primaryKey := false, autoIncrement := false, notNull := false, unique := false
    defaultValue := "", size := 0, precision := 0, scale := 0, comment := ""
    ignoreMigration := false }

/-- An empty-listed TableDiff for a named table. -/
def plainTableDiff (nm : String) : TableDiff :=
  { schema := { table := nm, fields := [], parsedIndexes := [], relationships := [] }
    fieldsToAdd := [], fieldsToDrop := [], fieldsToModify := [], fieldsToRename := []
    indexesToAdd := [], indexesToDrop := [], indexesToModify := []
    foreignKeysToAdd := [], foreignKeysToDrop := [] }

/-- A TableDiff whose only content is a column rename: the IsEmpty
counterexample input. -/
def renameOnlyDiff : TableDiff :=
  { plainTableDiff "users" with fieldsToRename := [{ oldName := "old_name", newName := "new_name" }] }

/-- A table schema with one concrete column and one index, used by the C6
witness as a non-empty current table. -/
def usersSchemaEx : Schema :=
  { table := "users"
    fields := [plainField "ID" "id" "int"]
    parsedIndexes := []
    relationships := [] }

/-- A target schema for the C6 witness that carries an index, so that the
witness shows index changes being suppressed for an existing table. -/
def usersTargetSchemaEx : Schema :=
  { table := "users"
    fields := [plainField "ID" "id" "int", plainField "Email" "email" "string"]
    parsedIndexes := [{ name := "idx_users_email", option := "UNIQUE", fieldDBNames := ["email"] }]
    relationships := [] }

/-- A modify-diff that adds one column (email) to an existing users table:
the scenario of spec section 4.5 and of the repository's down-migration
test. -/
def usersModifyDiff : TableDiff :=
  { plainTableDiff "users" with fieldsToAdd := [plainField "Email" "email" "string"] }

/-- The schema diff whose only content is the email column addition. -/
def emailAddDiff : SchemaDiff :=
  { tablesToCreate := [], tablesToDrop := [], tablesToModify := [usersModifyDiff]
    tablesToRename := [] }

/-- A no-changes schema diff: nothing to create, drop or rename, and one
modify entry that is empty by IsEmpty. -/
def noChangesDiff : SchemaDiff :=
  { tablesToCreate := [], tablesToDrop := [], tablesToModify := [plainTableDiff "users"]
    tablesToRename := [] }

/-- A diff with no tables-to-create but deliberately malformed content in
the other lists (empty column name, duplicate column names, unsupported
type): validation never inspects it. -/
def junkModifyDiff : SchemaDiff :=
  { tablesToCreate := []
    tablesToDrop := ["ghost"]
    tablesToModify :=
      [{ plainTableDiff "users" with
           fieldsToAdd := [plainField "Bad" "" "not_a_real_type",
                           plainField "X" "dup" "int",
                           plainField "Y" "dup" "int"] }]
    tablesToRename := [{ oldName := "a", newName := "b" }] }

/-- users table-to-create with a single primary-key column. -/
def usersCreateEx : TableDiff :=
  { plainTableDiff "users" with
      fieldsToAdd := [{ plainField "ID" "id" "int" with primaryKey := true }] }

/-- orders table-to-create with a foreign key referencing users. -/
def ordersCreateEx : TableDiff :=
  { plainTableDiff "orders" with
      fieldsToAdd := [{ plainField "ID" "id" "int" with primaryKey := true },
                      plainField "UserID" "user_id" "int"]
      foreignKeysToAdd :=
        [{ name := "orders_user_id_fkey"
           field := some (plainField "UserID" "user_id" "int")
           schemaRef := some { table := "users" } }] }

/-- A table-to-create with a self-referencing foreign key (parent_id on
categories referencing categories): self-references impose no ordering
constraint. -/
def categoriesSelfRefEx : TableDiff :=
  { plainTableDiff "categories" with
      fieldsToAdd := [{ plainField "ID" "id" "int" with primaryKey := true },
                      plainField "ParentID" "parent_id" "int"]
      foreignKeysToAdd :=
        [{ name := "categories_parent_id_fkey"
           field := some (plainField "ParentID" "parent_id" "int")
           schemaRef := some { table := "categories" } }] }

/-- The schema diff for the create/drop symmetry witness: orders is listed
before users, so the topological sort must put users first. -/
def createPairDiff : SchemaDiff :=
  { tablesToCreate := [ordersCreateEx, usersCreateEx]
    tablesToDrop := [], tablesToModify := [usersModifyDiff], tablesToRename := [] }

/-- orders alone, with its foreign key to the absent users table: an
acyclic reference graph on which the topological sort fails. -/
def danglingRefTables : List TableDiff :=
  [ordersCreateEx]

/-- A table referencing the absent table ghost. -/
def cartsTableEx : TableDiff :=
  { plainTableDiff "carts" with
      foreignKeysToAdd :=
        [{ name := "fk_carts", field := some (plainField "GhostID" "ghost_id" "int")
           schemaRef := some { table := "ghost" } }] }

/-- alpha references beta. -/
def alphaTableEx : TableDiff :=
  { plainTableDiff "alpha" with
      foreignKeysToAdd :=
        [{ name := "fk_alpha", field := some (plainField "BID" "b_id" "int")
           schemaRef := some { table := "beta" } }] }

/-- beta references alpha, closing a 2-cycle with alpha. -/
def betaTableEx : TableDiff :=
  { plainTableDiff "beta" with
      foreignKeysToAdd :=
        [{ name := "fk_beta", field := some (plainField "AID" "a_id" "int")
           schemaRef := some { table := "alpha" } }] }

/-- Two tables referencing each other (a 2-cycle) plus one table whose
reference target is absent; the C3 counterexample input, listed with the
dangling table first. -/
def cycleWithDanglingTables : List TableDiff :=
  [cartsTableEx, alphaTableEx, betaTableEx]

/-- Just the 2-cycle, with every referenced table present: the closed
cyclic input used by the amended C3 theorem's witness. -/
def pureCycleTables : List TableDiff :=
  [alphaTableEx, betaTableEx]

/-- The orders foreign key used by several examples. -/
def ordersFKEx : Relationship :=
  { name := "orders_user_id_fkey"
    field := some (plainField "UserID" "user_id" "int")
    schemaRef := some { table := "users" } }

/-- The diff and generator of the C9 witness: only orders is created,
while its foreign key references the absent users table. -/
def c9DiffEx : SchemaDiff :=
  { tablesToCreate := [ordersCreateEx], tablesToDrop := []
    tablesToModify := [], tablesToRename := [] }

/-- The generator of the C9 witness. -/
def c9GenEx : Generator :=
  { migrationsDir := "migrations", schemaDiff := some c9DiffEx }

/-- A table-to-create whose foreign key names the empty referenced table:
topoSortTables skips it and validation never checks referenced tables, so
migration creation succeeds on it. -/
def c9EmptyRefTable : TableDiff :=
  { plainTableDiff "orders" with
      fieldsToAdd := [{ plainField "ID" "id" "int" with primaryKey := true }]
      foreignKeysToAdd :=
        [{ name := "orders_empty_fkey"
           field := some { plainField "ID" "id" "int" with primaryKey := true }
           schemaRef := some { table := "" } }] }

/-- The schema diff of the C9 counterexample. -/
def c9EmptyRefDiff : SchemaDiff :=
  { tablesToCreate := [c9EmptyRefTable], tablesToDrop := []
    tablesToModify := [], tablesToRename := [] }

/-- An orders table-to-create whose foreign key's owning column (user_id)
is not among the added columns: the C9 case-A witness input. -/
def ordersMissingColEx : TableDiff :=
  { plainTableDiff "orders" with
      fieldsToAdd := [{ plainField "ID" "id" "int" with primaryKey := true }]
      foreignKeysToAdd :=
        [{ name := "orders_user_id_fkey"
           field := some (plainField "UserID" "user_id" "int")
           schemaRef := some { table := "orders" } }] }

/- ------------------------------------------------------------------
   Graph predicates and DFS invariants for the topological sort
   ------------------------------------------------------------------ -/

/-- The reference edge induced by a table map: a's entry references b
with an ordering-relevant foreign key. -/
def edgeTm (tm : AList TableDiff) (a b : String) : Prop :=
  ∃ t, alistLookup tm a = some t ∧ b ∈ depTargets t

/-- The foreign-key reference edge relation of a list of tables, on the
table map topoSortTables builds from it. -/
def tableEdge (tables : List TableDiff) : String → String → Prop :=
  edgeTm (buildTableMap tables [])

/-- A name lies on a foreign-key reference cycle of the listed tables;
self-references are already excluded by depTargets, so any such cycle has
length at least two. -/
def OnCycle (tables : List TableDiff) (n : String) : Prop :=
  Relation.TransGen (tableEdge tables) n n

/-- The foreign-key reference graph of the listed tables is acyclic. -/
def AcyclicTables (tables : List TableDiff) : Prop :=
  ∀ n, ¬ OnCycle tables n

/-- Every ordering-relevant reference target names one of the listed
tables. -/
def ClosedTables (tables : List TableDiff) : Prop :=
  ∀ t ∈ tables, ∀ d ∈ depTargets t, d ∈ tables.map (fun u => u.schema.table)

/-- No foreign key carries a nil Schema pointer (on such inputs the Go
topoSortTables would dereference nil; the model skips them). -/
def NoNilFKSchema (tables : List TableDiff) : Prop :=
  ∀ t ∈ tables, ∀ fk ∈ t.foreignKeysToAdd, fk.schemaRef ≠ none

/-- Entry consistency of a table map: each entry's key is its table's
name (true of every map topoSortTables builds). -/
def WFtm (tm : AList TableDiff) : Prop :=
  ∀ p ∈ tm, p.2.schema.table = p.1

/-- Every entry's dependencies stay inside the key set (table-map form of
ClosedTables). -/
def ClosedTm (tm : AList TableDiff) : Prop :=
  ∀ k t, alistLookup tm k = some t → ∀ d ∈ depTargets t, d ∈ alistKeys tm

/-- The visiting stack is a chain of reference edges ending at the
current call: the head is the direct parent of the visited name, and so
on down the stack. -/
def ChainTo (tm : AList TableDiff) : List String → String → Prop
  | [], _ => True
  | m :: rest, n => edgeTm tm m n ∧ ChainTo tm rest m

/-- Reversed-list form of topological consistency: each table's
dependencies occur among the names after it in the reversed output. -/
def DepsBeforeRev : List TableDiff → Prop
  | [] => True
  | t :: rest =>
    (∀ d ∈ depTargets t, d ∈ rest.map (fun u => u.schema.table)) ∧ DepsBeforeRev rest

/-- The DFS state invariant: both marker sets are duplicate-free and
contain only table-map keys, the visited set is exactly the name set of
the output, the output is topologically consistent, duplicate-free by
name, and consists of table-map entries. -/
structure GoodSt (tm : AList TableDiff) (st : TopoState) : Prop where
  vingNd : st.visiting.Nodup
  vingKeys : ∀ x ∈ st.visiting, x ∈ alistKeys tm
  vedNd : st.visited.Nodup
  vedKeys : ∀ x ∈ st.visited, x ∈ alistKeys tm
  vedSorted : ∀ x, x ∈ st.visited ↔ x ∈ st.sorted.map (fun t => t.schema.table)
  sortedNd : (st.sorted.map (fun t => t.schema.table)).Nodup
  sortedOK : DepsBeforeRev st.sorted.reverse
  sortedVals : ∀ t ∈ st.sorted, alistLookup tm t.schema.table = some t

/-- What a successful visit guarantees about the state transition: the
invariant is preserved, the visiting stack is restored, the visited set
only grows, every newly visited name was not on the caller's visiting
stack and has all its dependencies inside the key set, and the output is
extended at the end. -/
structure StepOk (tm : AList TableDiff) (st stp : TopoState) : Prop where
  good : GoodSt tm stp
  ving : stp.visiting = st.visiting
  mono : ∀ x ∈ st.visited, x ∈ stp.visited
  fresh : ∀ x ∈ stp.visited, x ∈ st.visited ∨ x ∉ st.visiting
  clos : ∀ x ∈ stp.visited, x ∈ st.visited ∨
    (∃ u, alistLookup tm x = some u ∧ ∀ d ∈ depTargets u, d ∈ alistKeys tm)
  sortedExt : ∃ ext, stp.sorted = st.sorted ++ ext

end GormMigrate

namespace GormMigrate

/- ------------------------------------------------------------------
   Association-list lemmas
   ------------------------------------------------------------------ -/

theorem alistKeys_map_overwrite {α : Type} (m : AList α) (k : String) (v : α) :
    alistKeys (List.map (fun p => if p.1 == k then (k, v) else p) m) = alistKeys m := by
  induction m with
  | nil => rfl
  | cons p rest ih =>
    unfold alistKeys at ih ⊢
    simp only [List.map_cons]
    have h1 : (if (p.1 == k) = true then (k, v) else p).1 = p.1 := by
      by_cases h : p.1 = k
      · simp [h]
      · simp [h]
    rw [h1, ih]

theorem alistKeys_insert_mem {α : Type} (m : AList α) (k : String) (v : α) :
    k ∈ alistKeys (alistInsert m k v) := by
  unfold alistInsert
  by_cases h : (List.map Prod.fst m).contains k
  · rw [if_pos h, alistKeys_map_overwrite]
    exact List.elem_iff.mp h
  · rw [if_neg h]
    simp [alistKeys]

theorem alistKeys_insert_preserve {α : Type} (m : AList α) (k : String) (v : α)
    (x : String) (hx : x ∈ alistKeys m) : x ∈ alistKeys (alistInsert m k v) := by
  unfold alistInsert
  by_cases h : (List.map Prod.fst m).contains k
  · rw [if_pos h, alistKeys_map_overwrite]; exact hx
  · rw [if_neg h]
    simp only [alistKeys, List.map_append]
    exact List.mem_append_left _ hx

theorem alistKeys_insert_sub {α : Type} (m : AList α) (k : String) (v : α)
    (x : String) (hx : x ∈ alistKeys (alistInsert m k v)) : x = k ∨ x ∈ alistKeys m := by
  unfold alistInsert at hx
  by_cases h : (List.map Prod.fst m).contains k
  · rw [if_pos h, alistKeys_map_overwrite] at hx; exact Or.inr hx
  · rw [if_neg h] at hx
    simp only [alistKeys, List.map_append] at hx
    rcases List.mem_append.mp hx with h1 | h2
    · exact Or.inr h1
    · simp at h2; exact Or.inl h2

theorem alistKeys_insert_nodup {α : Type} (m : AList α) (k : String) (v : α)
    (h : (alistKeys m).Nodup) : (alistKeys (alistInsert m k v)).Nodup := by
  unfold alistInsert
  by_cases hc : (List.map Prod.fst m).contains k
  · rw [if_pos hc, alistKeys_map_overwrite]; exact h
  · rw [if_neg hc]
    simp only [alistKeys, List.map_append]
    have hk : k ∉ alistKeys m := by
      intro hmem
      exact hc (List.elem_iff.mpr hmem)
    have : (alistKeys m ++ [k]).Nodup := by
      rw [List.nodup_append]
      exact ⟨h, List.nodup_singleton k, by
        intro a ha hb
        simp at hb
        subst hb
        exact hk ha⟩
    simpa [alistKeys] using this

theorem alistInsert_mem_elim {α : Type} (m : AList α) (k : String) (v : α)
    (p : String × α) (hp : p ∈ alistInsert m k v) : p = (k, v) ∨ p ∈ m := by
  unfold alistInsert at hp
  by_cases h : (List.map Prod.fst m).contains k
  · rw [if_pos h] at hp
    rcases List.mem_map.mp hp with ⟨q, hq, hfq⟩
    by_cases hqk : q.1 = k
    · left; rw [← hfq]; simp [hqk]
    · right; rw [← hfq]; simpa [hqk] using hq
  · rw [if_neg h] at hp
    rcases List.mem_append.mp hp with h1 | h2
    · exact Or.inr h1
    · left; simpa using h2

theorem alistInsert_mem_keep {α : Type} (m : AList α) (k : String) (v : α)
    (p : String × α) (hp : p ∈ m) (hne : p.1 ≠ k) : p ∈ alistInsert m k v := by
  unfold alistInsert
  by_cases h : (List.map Prod.fst m).contains k
  · rw [if_pos h]
    refine List.mem_map.mpr ⟨p, hp, ?_⟩
    rw [if_neg (by simp [hne])]
  · rw [if_neg h]
    exact List.mem_append_left _ hp

theorem alistInsert_self_mem {α : Type} (m : AList α) (k : String) (v : α)
    (hk : k ∉ alistKeys m) : (k, v) ∈ alistInsert m k v := by
  unfold alistInsert
  have h : ¬ (List.map Prod.fst m).contains k := fun hc => hk (List.elem_iff.mp hc)
  rw [if_neg h]
  exact List.mem_append_right _ (by simp)

theorem alistLookup_some_mem {α : Type} (m : AList α) (k : String) (v : α)
    (h : alistLookup m k = some v) : (k, v) ∈ m := by
  unfold alistLookup at h
  cases hf : List.find? (fun p => p.1 == k) m with
  | none => rw [hf] at h; cases h
  | some q =>
    rw [hf] at h
    cases h
    have hq := List.find?_some hf
    have hqm := List.mem_of_find?_eq_some hf
    have : q.1 = k := by simpa using hq
    have hqe : q = (k, q.2) := by
      cases q; simp_all
    rw [hqe] at hqm
    exact hqm

theorem alistLookup_none_iff {α : Type} (m : AList α) (k : String) :
    alistLookup m k = none ↔ k ∉ alistKeys m := by
  constructor
  · intro h hk
    unfold alistLookup at h
    cases hf : List.find? (fun p => p.1 == k) m with
    | some q => rw [hf] at h; cases h
    | none =>
      rcases List.mem_map.mp hk with ⟨p, hp, hfst⟩
      have := List.find?_eq_none.mp hf p hp
      simp [hfst] at this
  · intro hk
    unfold alistLookup
    cases hf : List.find? (fun p => p.1 == k) m with
    | none => rfl
    | some q =>
      have hq := List.find?_some hf
      have hqm := List.mem_of_find?_eq_some hf
      have hq1 : q.1 = k := by simpa using hq
      exact absurd (List.mem_map.mpr ⟨q, hqm, hq1⟩) hk

theorem alistLookup_isSome_of_key_mem {α : Type} (m : AList α) (k : String)
    (h : k ∈ alistKeys m) : ∃ v, alistLookup m k = some v := by
  cases hl : alistLookup m k with
  | none => exact absurd h ((alistLookup_none_iff m k).mp hl)
  | some v => exact ⟨v, rfl⟩

theorem alistLookup_some_key_mem {α : Type} (m : AList α) (k : String) (v : α)
    (h : alistLookup m k = some v) : k ∈ alistKeys m := by
  have := alistLookup_some_mem m k v h
  exact List.mem_map.mpr ⟨(k, v), this, rfl⟩

theorem alistLookup_eq_of_mem_nodup {α : Type} (m : AList α) (k : String) (v : α)
    (hnd : (alistKeys m).Nodup) (hm : (k, v) ∈ m) : alistLookup m k = some v := by
  induction m with
  | nil => cases hm
  | cons p rest ih =>
    simp only [alistKeys, List.map_cons, List.nodup_cons] at hnd
    rcases List.mem_cons.mp hm with h1 | h2
    · subst h1
      unfold alistLookup
      simp
    · by_cases hpk : p.1 = k
      · exfalso
        apply hnd.1
        rw [hpk]
        exact List.mem_map.mpr ⟨(k, v), h2, rfl⟩
      · unfold alistLookup
        rw [List.find?_cons_of_neg _ (by simp [hpk])]
        exact ih hnd.2 h2

theorem alistLookup_self_of_entries_nodup {α : Type} (m : AList α)
    (hnd : (alistKeys m).Nodup) :
    ∀ p ∈ m, alistLookup m p.1 = some p.2 := by
  intro p hp
  exact alistLookup_eq_of_mem_nodup m p.1 p.2 hnd (by simpa using hp)

/- ------------------------------------------------------------------
   Registry differ lemmas (C1, C6, C7)
   ------------------------------------------------------------------ -/

theorem fieldsEqual_self (f : Field) : fieldsEqual f f = true := by
  simp [fieldsEqual]

theorem indexesEqual_self (i : Index) : indexesEqual i i = true := by
  simp [indexesEqual]

theorem buildFieldMap_keys_nodup (l : List Field) (acc : AList Field)
    (h : (alistKeys acc).Nodup) : (alistKeys (buildFieldMap l acc)).Nodup := by
  induction l generalizing acc with
  | nil => exact h
  | cons f rest ih => exact ih _ (alistKeys_insert_nodup _ _ _ h)

theorem buildIndexMap_keys_nodup (l : List Index) (acc : AList Index)
    (h : (alistKeys acc).Nodup) : (alistKeys (buildIndexMap l acc)).Nodup := by
  induction l generalizing acc with
  | nil => exact h
  | cons i rest ih => exact ih _ (alistKeys_insert_nodup _ _ _ h)

theorem buildNormMap_keys_nodup (l : List (String × Schema)) (acc : AList Schema)
    (h : (alistKeys acc).Nodup) : (alistKeys (buildNormMap l acc)).Nodup := by
  induction l generalizing acc with
  | nil => exact h
  | cons p rest ih => exact ih _ (alistKeys_insert_nodup _ _ _ h)

theorem alistSetIgnore_keys (m : AList Field) (k : String) :
    alistKeys (alistSetIgnore m k) = alistKeys m := by
  unfold alistSetIgnore
  cases alistLookup m k with
  | none => rfl
  | some f =>
    induction m with
    | nil => rfl
    | cons p rest ih =>
      unfold alistKeys at ih ⊢
      simp only [List.map_cons]
      have h1 : (if (p.1 == k) = true then (p.1, { p.2 with ignoreMigration := true }) else p).1
          = p.1 := by
        by_cases h : p.1 = k
        · simp [h]
        · simp [h]
      rw [h1, ih]

theorem markGormDefaults_keys (m : AList Field) :
    alistKeys (markGormDefaults m) = alistKeys m := by
  unfold markGormDefaults
  generalize gormDefaultFields = l
  induction l generalizing m with
  | nil => rfl
  | cons f rest ih =>
    simp only [List.foldl_cons]
    rw [ih, alistSetIgnore_keys]

theorem collectFieldAddsMods_self (cf : AList Field) (l : AList Field)
    (h : ∀ p ∈ l, alistLookup cf p.1 = some p.2) :
    collectFieldAddsMods cf l = ([], []) := by
  induction l with
  | nil => rfl
  | cons p rest ih =>
    obtain ⟨k, f⟩ := p
    unfold collectFieldAddsMods
    rw [ih (fun q hq => h q (List.mem_cons_of_mem _ hq))]
    rw [h (k, f) (List.mem_cons_self _ _)]
    simp [fieldsEqual_self]

theorem collectFieldDrops_none (tf : AList Field) (l : AList Field)
    (h : ∀ p ∈ l, ∃ v, alistLookup tf p.1 = some v) :
    collectFieldDrops tf l = [] := by
  induction l with
  | nil => rfl
  | cons p rest ih =>
    obtain ⟨k, f⟩ := p
    obtain ⟨v, hv⟩ := h (k, f) (List.mem_cons_self _ _)
    unfold collectFieldDrops
    rw [hv]
    have := ih (fun q hq => h q (List.mem_cons_of_mem _ hq))
    by_cases hig : f.ignoreMigration
    · simpa [hig] using this
    · simpa [hig] using this

theorem collectIndexAddsMods_self (ci : AList Index) (l : AList Index)
    (h : ∀ p ∈ l, alistLookup ci p.1 = some p.2) :
    collectIndexAddsMods ci l = ([], []) := by
  induction l with
  | nil => rfl
  | cons p rest ih =>
    obtain ⟨k, idx⟩ := p
    unfold collectIndexAddsMods
    rw [ih (fun q hq => h q (List.mem_cons_of_mem _ hq))]
    rw [h (k, idx) (List.mem_cons_self _ _)]
    simp [indexesEqual_self]

theorem collectIndexDrops_none (ti : AList Index) (l : AList Index)
    (h : ∀ p ∈ l, ∃ v, alistLookup ti p.1 = some v) :
    collectIndexDrops ti l = [] := by
  induction l with
  | nil => rfl
  | cons p rest ih =>
    obtain ⟨k, idx⟩ := p
    obtain ⟨v, hv⟩ := h (k, idx) (List.mem_cons_self _ _)
    unfold collectIndexDrops
    rw [hv]
    exact ih (fun q hq => h q (List.mem_cons_of_mem _ hq))

/-- Comparing a table schema with itself yields a diff whose nine
operation lists are all empty. -/
theorem compareTable_self (s : Schema) :
    compareTable s s =
      { schema := s, fieldsToAdd := [], fieldsToDrop := [], fieldsToModify := []
        fieldsToRename := [], indexesToAdd := [], indexesToDrop := []
        indexesToModify := [], foreignKeysToAdd := [], foreignKeysToDrop := [] } := by
  unfold compareTable
  dsimp only
  have hndF : (alistKeys (markGormDefaults (buildFieldMap s.fields []))).Nodup := by
    rw [markGormDefaults_keys]
    exact buildFieldMap_keys_nodup _ _ List.nodup_nil
  have hF := alistLookup_self_of_entries_nodup _ hndF
  rw [collectFieldAddsMods_self _ _ hF]
  rw [collectFieldDrops_none _ _ (fun p hp => ⟨p.2, hF p hp⟩)]
  by_cases hf : s.fields.isEmpty
  · have hndI : (alistKeys (buildIndexMap s.parsedIndexes [])).Nodup :=
      buildIndexMap_keys_nodup _ _ List.nodup_nil
    have hI := alistLookup_self_of_entries_nodup _ hndI
    rw [if_pos hf]
    rw [collectIndexAddsMods_self _ _ hI]
    rw [collectIndexDrops_none _ _ (fun p hp => ⟨p.2, hI p hp⟩)]
  · rw [if_neg hf]

theorem compareTable_self_isEmpty (s : Schema) :
    (compareTable s s).IsEmpty = true := by
  rw [compareTable_self]
  rfl

theorem collectCreatesMods_self (nc : AList Schema) (l : AList Schema)
    (h : ∀ p ∈ l, alistLookup nc p.1 = some p.2) :
    collectCreatesMods nc l = ([], []) := by
  induction l with
  | nil => rfl
  | cons p rest ih =>
    obtain ⟨k, tgt⟩ := p
    unfold collectCreatesMods
    rw [ih (fun q hq => h q (List.mem_cons_of_mem _ hq))]
    rw [h (k, tgt) (List.mem_cons_self _ _)]
    simp [compareTable_self_isEmpty]

theorem collectTableDrops_none (current : List (String × Schema)) (nt : AList Schema)
    (l : AList Schema) (h : ∀ p ∈ l, ∃ v, alistLookup nt p.1 = some v) :
    collectTableDrops current nt l = [] := by
  induction l with
  | nil => rfl
  | cons p rest ih =>
    obtain ⟨k, sc⟩ := p
    obtain ⟨v, hv⟩ := h (k, sc) (List.mem_cons_self _ _)
    unfold collectTableDrops
    rw [hv]
    exact ih (fun q hq => h q (List.mem_cons_of_mem _ hq))

/-- C1.  Diff idempotence: comparing any schema (a map from table name to
table schema, with fields, indexes and foreign-key relationships) with
itself yields the empty SchemaDiff — no creates, drops, modifies or
renames — and the per-table comparison of any table with itself is empty
by IsEmpty. -/
theorem C1_diff_idempotence (s : List (String × Schema)) :
    compareSchemas s s =
      { tablesToCreate := [], tablesToDrop := [], tablesToModify := [], tablesToRename := [] } ∧
    ∀ t : Schema, (compareTable t t).IsEmpty = true := by
  constructor
  · unfold compareSchemas
    dsimp only
    have hnd : (alistKeys (buildNormMap s [])).Nodup :=
      buildNormMap_keys_nodup _ _ List.nodup_nil
    have hL := alistLookup_self_of_entries_nodup _ hnd
    rw [collectCreatesMods_self _ _ hL]
    rw [collectTableDrops_none s _ _ (fun p hp => ⟨p.2, hL p hp⟩)]
  · exact compareTable_self_isEmpty

/-- C6.  Index changes are proposed only for brand-new tables: whenever
the current table schema has at least one field (the table already
exists), the per-table diff proposes no index additions, drops or
modifications. -/
theorem C6_index_changes_only_new_tables (current target : Schema)
    (h : current.fields ≠ []) :
    (compareTable current target).indexesToAdd = [] ∧
    (compareTable current target).indexesToDrop = [] ∧
    (compareTable current target).indexesToModify = [] := by
  unfold compareTable
  have hne : current.fields.isEmpty = false := by
    cases hf : current.fields with
    | nil => exact absurd hf h
    | cons a l => rfl
  rw [hne]
  exact ⟨rfl, rfl, rfl⟩

/-- Witness for C6 at a concrete existing table whose target carries a
unique index: no index operation is proposed. -/
theorem C6_witness :
    usersSchemaEx.fields ≠ [] ∧
    (compareTable usersSchemaEx usersTargetSchemaEx).indexesToAdd = [] ∧
    (compareTable usersSchemaEx usersTargetSchemaEx).indexesToDrop = [] ∧
    (compareTable usersSchemaEx usersTargetSchemaEx).indexesToModify = [] := by
  refine ⟨by decide, ?_⟩
  exact C6_index_changes_only_new_tables usersSchemaEx usersTargetSchemaEx (by decide)

/-- C7 (amended).  IsEmpty is the conjunction of emptiness of exactly the
seven lists the source checks: fields to add, modify and drop, indexes to
add and drop, and foreign keys to add and drop.  FieldsToRename and
IndexesToModify are not consulted. -/
theorem C7_isEmpty_characterization (d : TableDiff) :
    d.IsEmpty = true ↔
      (d.fieldsToAdd = [] ∧ d.fieldsToModify = [] ∧ d.fieldsToDrop = [] ∧
       d.indexesToAdd = [] ∧ d.indexesToDrop = [] ∧
       d.foreignKeysToAdd = [] ∧ d.foreignKeysToDrop = []) := by
  simp [TableDiff.IsEmpty, List.isEmpty_iff, and_assoc]

/-- Counterexample to C7 as stated: a TableDiff whose FieldsToRename list
is non-empty (an operation list in the claim's enumeration) still has
IsEmpty true, so IsEmpty is not equivalent to emptiness of all nine
lists. -/
theorem C7_counterexample :
    renameOnlyDiff.IsEmpty = true ∧ renameOnlyDiff.fieldsToRename ≠ [] := by
  decide

/- ------------------------------------------------------------------
   Generator lemmas (C4, C5, C8, C10)
   ------------------------------------------------------------------ -/

/-- C8.  No-changes rejection: a schema diff with empty create, drop and
rename lists and only IsEmpty modify entries makes CreateMigration fail
with the distinct no-changes error; the error is returned before
validation, SQL generation and file writing. -/
theorem C8_no_changes_rejection (g : Generator) (d : SchemaDiff) (name : String)
    (hg : g.schemaDiff = some d)
    (hc : d.tablesToCreate = []) (hd : d.tablesToDrop = []) (hr : d.tablesToRename = [])
    (hm : ∀ t ∈ d.tablesToModify, t.IsEmpty = true) :
    createMigration g name = Except.error "no schema changes detected" := by
  unfold createMigration
  rw [hg]
  have hch : hasChanges d = false := by
    unfold hasChanges
    rw [hc, hd, hr]
    simp only [List.isEmpty_nil, Bool.not_true, Bool.false_or]
    rw [List.any_eq_false]
    intro t ht
    rw [hm t ht]
    simp
  dsimp only
  rw [hch]
  rfl

/-- Witness for C8 at a concrete diff whose only modify entry is empty. -/
theorem C8_witness :
    createMigration { migrationsDir := "migrations", schemaDiff := some noChangesDiff }
      "empty_migration" = Except.error "no schema changes detected" :=
  C8_no_changes_rejection _ noChangesDiff "empty_migration" rfl rfl rfl rfl
    (by decide)

/-- C10.  Validation scope is limited to created tables: any schema diff
with an empty tables-to-create list passes validateSchemaDiff, whatever
the contents of the modify, drop and rename lists. -/
theorem C10_validation_scope (d : SchemaDiff) (h : d.tablesToCreate = []) :
    validateSchemaDiff (some d) = Except.ok () := by
  unfold validateSchemaDiff
  dsimp only
  rw [h]
  rfl

/-- Witness for C10: a diff whose modify list has an empty column name,
duplicate column names and an unsupported type is still accepted. -/
theorem C10_witness :
    validateSchemaDiff (some junkModifyDiff) = Except.ok () :=
  C10_validation_scope junkModifyDiff rfl

/-- C5 is a code bug: evaluation of the generator at the failing input.
The up direction adds the email column to users, but the generated down
SQL is empty — generateDownSQL emits DROP INDEX, DROP CONSTRAINT and
DROP TABLE statements only, never DROP COLUMN for added columns of
modified tables, contradicting the spec and the repository's own
down-migration test. -/
theorem C5_down_sql_missing_drop_column :
    generateModifyTableSQL usersModifyDiff =
      ["ALTER TABLE \"users\" ADD COLUMN \"email\" varchar(255);"] ∧
    generateDownSQLStmts emailAddDiff = [] ∧
    generateDownSQL (some emailAddDiff) = "" :=
  ⟨rfl, rfl, rfl⟩

theorem reverseDropStmts_eq_reverse_map (l : List TableDiff) :
    reverseDropStmts l =
      (l.map (fun t => "DROP TABLE IF EXISTS " ++ quoteIdentifier t.schema.table ++ ";")).reverse := by
  induction l with
  | nil => rfl
  | cons t ts ih =>
    unfold reverseDropStmts
    rw [ih]
    simp

/-- C4.  Create/drop symmetry: when the tables-to-create sort without
error, the up statements emit one CREATE TABLE per created table in
topological order, and the down statements end with DROP TABLE statements
for exactly those tables in the reverse of that order (after the index
and foreign-key constraint drops). -/
theorem C4_create_drop_symmetry (d : SchemaDiff) (sorted : List TableDiff)
    (h : topoSortTables d.tablesToCreate = Except.ok sorted) :
    generateUpSQLStmts d =
      Except.ok (sorted.map generateCreateTableSQL ++
                 d.tablesToModify.flatMap generateModifyTableSQL) ∧
    generateDownSQLStmts d =
      downIndexDropStmts d ++ downFKDropStmts d ++
      (sorted.map (fun t => "DROP TABLE IF EXISTS " ++ quoteIdentifier t.schema.table ++ ";")).reverse := by
  constructor
  · unfold generateUpSQLStmts
    rw [h]
  · unfold generateDownSQLStmts
    rw [h]
    dsimp only
    rw [reverseDropStmts_eq_reverse_map]

/- ------------------------------------------------------------------
   Table-map lemmas
   ------------------------------------------------------------------ -/

theorem alistInsert_length {α : Type} (m : AList α) (k : String) (v : α) :
    (alistInsert m k v).length ≤ m.length + 1 := by
  unfold alistInsert
  by_cases h : (List.map Prod.fst m).contains k
  · rw [if_pos h, List.length_map]; omega
  · rw [if_neg h, List.length_append]; simp

theorem buildTableMap_length (l : List TableDiff) (acc : AList TableDiff) :
    (buildTableMap l acc).length ≤ acc.length + l.length := by
  induction l generalizing acc with
  | nil => simp [buildTableMap]
  | cons t rest ih =>
    unfold buildTableMap
    have h1 := ih (alistInsert acc t.schema.table t)
    have h2 := alistInsert_length acc t.schema.table t
    simp only [List.length_cons]
    omega

theorem buildTableMap_keys_nodup (l : List TableDiff) (acc : AList TableDiff)
    (h : (alistKeys acc).Nodup) : (alistKeys (buildTableMap l acc)).Nodup := by
  induction l generalizing acc with
  | nil => exact h
  | cons t rest ih => exact ih _ (alistKeys_insert_nodup _ _ _ h)

theorem buildTableMap_entry (l : List TableDiff) (acc : AList TableDiff)
    (p : String × TableDiff) (hp : p ∈ buildTableMap l acc) :
    (p.2.schema.table = p.1 ∧ p.2 ∈ l) ∨ p ∈ acc := by
  induction l generalizing acc with
  | nil => exact Or.inr hp
  | cons t rest ih =>
    rcases ih _ hp with ⟨hwf, hm⟩ | hacc
    · exact Or.inl ⟨hwf, List.mem_cons_of_mem _ hm⟩
    · rcases alistInsert_mem_elim _ _ _ _ hacc with he | hm
      · subst he
        exact Or.inl ⟨rfl, List.mem_cons_self _ _⟩
      · exact Or.inr hm

theorem buildTableMap_wf (l : List TableDiff) : WFtm (buildTableMap l []) := by
  intro p hp
  rcases buildTableMap_entry l [] p hp with ⟨hwf, _⟩ | hacc
  · exact hwf
  · cases hacc

theorem buildTableMap_val_mem (l : List TableDiff) (p : String × TableDiff)
    (hp : p ∈ buildTableMap l []) : p.2 ∈ l := by
  rcases buildTableMap_entry l [] p hp with ⟨_, hm⟩ | hacc
  · exact hm
  · cases hacc

theorem buildTableMap_keys_sub (l : List TableDiff) (x : String)
    (hx : x ∈ alistKeys (buildTableMap l [])) :
    x ∈ l.map (fun u => u.schema.table) := by
  rcases List.mem_map.mp hx with ⟨p, hp, hfst⟩
  rcases buildTableMap_entry l [] p hp with ⟨hwf, hm⟩ | hacc
  · exact List.mem_map.mpr ⟨p.2, hm, by rw [hwf, hfst]⟩
  · cases hacc

theorem buildTableMap_keys_mono (l : List TableDiff) (acc : AList TableDiff)
    (x : String) (hx : x ∈ alistKeys acc) : x ∈ alistKeys (buildTableMap l acc) := by
  induction l generalizing acc with
  | nil => exact hx
  | cons t rest ih => exact ih _ (alistKeys_insert_preserve _ _ _ _ hx)

theorem buildTableMap_key_of_mem (l : List TableDiff) (acc : AList TableDiff)
    (t : TableDiff) (ht : t ∈ l) :
    t.schema.table ∈ alistKeys (buildTableMap l acc) := by
  induction l generalizing acc with
  | nil => cases ht
  | cons u rest ih =>
    rcases List.mem_cons.mp ht with he | hm
    · subst he
      unfold buildTableMap
      exact buildTableMap_keys_mono rest _ _ (alistKeys_insert_mem acc _ _)
    · unfold buildTableMap
      exact ih _ hm

theorem buildTableMap_keep_of_absent (l : List TableDiff) (acc : AList TableDiff)
    (p : String × TableDiff) (hp : p ∈ acc)
    (habs : p.1 ∉ l.map (fun u => u.schema.table)) : p ∈ buildTableMap l acc := by
  induction l generalizing acc with
  | nil => exact hp
  | cons u rest ih =>
    have hne : p.1 ≠ u.schema.table := by
      intro he
      exact habs (List.mem_map.mpr ⟨u, List.mem_cons_self _ _, he.symm⟩)
    have habs2 : p.1 ∉ rest.map (fun v => v.schema.table) := by
      intro hm
      rcases List.mem_map.mp hm with ⟨v, hv, hev⟩
      exact habs (List.mem_map.mpr ⟨v, List.mem_cons_of_mem _ hv, hev⟩)
    unfold buildTableMap
    exact ih _ (alistInsert_mem_keep _ _ _ _ hp hne) habs2

theorem buildTableMap_self_entry (l : List TableDiff)
    (hnod : (l.map (fun u => u.schema.table)).Nodup) (t : TableDiff) (ht : t ∈ l) :
    ∀ acc : AList TableDiff, t.schema.table ∉ alistKeys acc →
      (t.schema.table, t) ∈ buildTableMap l acc := by
  induction l with
  | nil => cases ht
  | cons u rest ih =>
    intro acc hacc
    simp only [List.map_cons, List.nodup_cons] at hnod
    rcases List.mem_cons.mp ht with he | hm
    · subst he
      unfold buildTableMap
      exact buildTableMap_keep_of_absent rest _ _
        (alistInsert_self_mem acc _ _ hacc) hnod.1
    · have hne : t.schema.table ≠ u.schema.table := by
        intro he
        exact hnod.1 (he ▸ List.mem_map.mpr ⟨t, hm, rfl⟩)
      unfold buildTableMap
      refine ih hnod.2 hm _ ?_
      intro hk
      rcases alistKeys_insert_sub acc _ u _ hk with he | hk2
      · exact hne he
      · exact hacc hk2

theorem buildTableMap_lookup_self (l : List TableDiff)
    (hnod : (l.map (fun u => u.schema.table)).Nodup) (t : TableDiff) (ht : t ∈ l) :
    alistLookup (buildTableMap l []) t.schema.table = some t := by
  refine alistLookup_eq_of_mem_nodup _ _ _ (buildTableMap_keys_nodup l [] List.nodup_nil) ?_
  exact buildTableMap_self_entry l hnod t ht [] (by simp [alistKeys])

/- ------------------------------------------------------------------
   Chain and ordering lemmas
   ------------------------------------------------------------------ -/

theorem chainTo_cycle (tm : AList TableDiff) (l : List String) (x n : String)
    (hc : ChainTo tm l x) (hn : n ∈ l) :
    Relation.TransGen (edgeTm tm) n x := by
  induction l generalizing x with
  | nil => cases hn
  | cons m rest ih =>
    obtain ⟨hedge, hchain⟩ := hc
    rcases List.mem_cons.mp hn with he | hm
    · subst he
      exact Relation.TransGen.single hedge
    · exact Relation.TransGen.tail (ih m hchain hm) hedge

theorem depsBeforeRev_split (r a b : List TableDiff) (t : TableDiff)
    (h : DepsBeforeRev r) (he : r = a ++ t :: b) :
    ∀ d ∈ depTargets t, d ∈ b.map (fun u => u.schema.table) := by
  induction a generalizing r with
  | nil =>
    subst he
    exact h.1
  | cons x a2 ih =>
    subst he
    exact ih _ h.2 rfl

theorem depsBeforeRev_order (l : List TableDiff) (h : DepsBeforeRev l.reverse)
    (pre suf : List TableDiff) (t : TableDiff) (he : l = pre ++ t :: suf) :
    ∀ d ∈ depTargets t, d ∈ pre.map (fun u => u.schema.table) := by
  intro d hd
  have hrev : l.reverse = suf.reverse ++ t :: pre.reverse := by
    rw [he]
    simp
  have := depsBeforeRev_split l.reverse suf.reverse pre.reverse t h hrev d hd
  rw [List.map_reverse] at this
  exact List.mem_reverse.mp this

theorem nodup_append_singleton {α : Type} (l : List α) (a : α)
    (h : l.Nodup) (ha : a ∉ l) : (l ++ [a]).Nodup := by
  rw [List.nodup_append]
  refine ⟨h, List.nodup_singleton a, ?_⟩
  intro x hx hax
  simp only [List.mem_singleton] at hax
  subst hax
  exact ha hx

theorem stepOk_refl (tm : AList TableDiff) (st : TopoState) (h : GoodSt tm st) :
    StepOk tm st st :=
  { good := h
    ving := rfl
    mono := fun _ hx => hx
    fresh := fun x hx => Or.inl hx
    clos := fun x hx => Or.inl hx
    sortedExt := ⟨[], by simp⟩ }

theorem stepOk_trans {tm : AList TableDiff} {s1 s2 s3 : TopoState}
    (h12 : StepOk tm s1 s2) (h23 : StepOk tm s2 s3) : StepOk tm s1 s3 :=
  { good := h23.good
    ving := by rw [h23.ving, h12.ving]
    mono := fun x hx => h23.mono x (h12.mono x hx)
    fresh := fun x hx => by
      rcases h23.fresh x hx with h2 | h2
      · exact h12.fresh x h2
      · rw [h12.ving] at h2
        exact Or.inr h2
    clos := fun x hx => by
      rcases h23.clos x hx with h2 | h2
      · exact h12.clos x h2
      · exact Or.inr h2
    sortedExt := by
      obtain ⟨e1, he1⟩ := h12.sortedExt
      obtain ⟨e2, he2⟩ := h23.sortedExt
      exact ⟨e1 ++ e2, by rw [he2, he1, List.append_assoc]⟩ }

/-- State preservation of the DFS: every successful visit preserves the
invariant, restores the visiting stack, only grows the visited set with
names that were not on the visiting stack and whose dependencies all lie
in the key set, appends to the output, and marks the visited name. -/
theorem visit_preserve (tm : AList TableDiff) (hwf : WFtm tm) : ∀ fuel : Nat,
    (∀ n st stp, GoodSt tm st → visitFuel tm fuel n st = Except.ok stp →
       StepOk tm st stp ∧ n ∈ stp.visited) ∧
    (∀ ds st stp, GoodSt tm st →
       visitDepsOf (visitFuel tm fuel) ds st = Except.ok stp →
       StepOk tm st stp ∧ ∀ d ∈ ds, d ∈ stp.visited) := by
  intro fuel
  induction fuel with
  | zero =>
    constructor
    · intro n st stp _ hok
      exact Except.noConfusion hok
    · intro ds st stp hg hok
      cases ds with
      | nil =>
        unfold visitDepsOf at hok
        cases hok
        exact ⟨stepOk_refl tm st hg, by intro d hd; cases hd⟩
      | cons d rest =>
        unfold visitDepsOf at hok
        exact Except.noConfusion hok
  | succ f ih =>
    obtain ⟨ihv, ihd⟩ := ih
    have hv : ∀ n st stp, GoodSt tm st → visitFuel tm (f + 1) n st = Except.ok stp →
        StepOk tm st stp ∧ n ∈ stp.visited := by
      intro n st stp hg hok
      unfold visitFuel at hok
      by_cases hvis : n ∈ st.visited
      · rw [if_pos hvis] at hok
        cases hok
        exact ⟨stepOk_refl tm st hg, hvis⟩
      · rw [if_neg hvis] at hok
        by_cases hving : n ∈ st.visiting
        · rw [if_pos hving] at hok
          exact Except.noConfusion hok
        · rw [if_neg hving] at hok
          dsimp only at hok
          cases hl : alistLookup tm n with
          | none =>
            rw [hl] at hok
            exact Except.noConfusion hok
          | some t =>
            rw [hl] at hok
            dsimp only at hok
            cases hdeps : visitDepsOf (visitFuel tm f) (depTargets t)
                { st with visiting := n :: st.visiting } with
            | error e =>
              rw [hdeps] at hok
              exact Except.noConfusion hok
            | ok st2 =>
              rw [hdeps] at hok
              cases hok
              have hnk : n ∈ alistKeys tm := alistLookup_some_key_mem tm n t hl
              have hwfn : t.schema.table = n := hwf (n, t) (alistLookup_some_mem tm n t hl)
              have hg1 : GoodSt tm { st with visiting := n :: st.visiting } :=
                { vingNd := List.nodup_cons.mpr ⟨hving, hg.vingNd⟩
                  vingKeys := by
                    intro x hx
                    rcases List.mem_cons.mp hx with rfl | hm
                    · exact hnk
                    · exact hg.vingKeys x hm
                  vedNd := hg.vedNd
                  vedKeys := hg.vedKeys
                  vedSorted := hg.vedSorted
                  sortedNd := hg.sortedNd
                  sortedOK := hg.sortedOK
                  sortedVals := hg.sortedVals }
              obtain ⟨hs12, halldeps⟩ := ihd (depTargets t) _ st2 hg1 hdeps
              have hving2 : st2.visiting = n :: st.visiting := hs12.ving
              have hnotin2 : n ∉ st2.visited := by
                intro hmem
                rcases hs12.fresh n hmem with h1 | h2
                · exact hvis h1
                · exact h2 (List.mem_cons_self _ _)
              have hdepskeys : ∀ d ∈ depTargets t, d ∈ alistKeys tm := by
                intro d hd
                exact hs12.good.vedKeys d (halldeps d hd)
              have hdepsved : ∀ d ∈ depTargets t,
                  d ∈ st2.sorted.map (fun u => u.schema.table) := by
                intro d hd
                exact (hs12.good.vedSorted d).mp (halldeps d hd)
              have hnames2 : n ∉ st2.sorted.map (fun u => u.schema.table) := by
                intro hm
                exact hnotin2 ((hs12.good.vedSorted n).mpr hm)
              have hgp : GoodSt tm { visited := n :: st2.visited
                                     visiting := st2.visiting.erase n
                                     sorted := st2.sorted ++ [t] } :=
                { vingNd := by
                    dsimp only
                    rw [hving2, List.erase_cons_head]
                    exact hg.vingNd
                  vingKeys := by
                    dsimp only
                    rw [hving2, List.erase_cons_head]
                    exact hg.vingKeys
                  vedNd := List.nodup_cons.mpr ⟨hnotin2, hs12.good.vedNd⟩
                  vedKeys := by
                    intro x hx
                    rcases List.mem_cons.mp hx with rfl | hm
                    · exact hnk
                    · exact hs12.good.vedKeys x hm
                  vedSorted := by
                    intro x
                    dsimp only
                    constructor
                    · intro hx
                      rw [List.map_append]
                      rcases List.mem_cons.mp hx with rfl | hm
                      · exact List.mem_append_right _ (by simp [hwfn])
                      · exact List.mem_append_left _ ((hs12.good.vedSorted x).mp hm)
                    · intro hx
                      rw [List.map_append] at hx
                      rcases List.mem_append.mp hx with hm | hs
                      · exact List.mem_cons_of_mem _ ((hs12.good.vedSorted x).mpr hm)
                      · simp only [List.map_cons, List.map_nil, List.mem_singleton] at hs
                        rw [hs, hwfn]
                        exact List.mem_cons_self _ _
                  sortedNd := by
                    dsimp only
                    rw [List.map_append]
                    simp only [List.map_cons, List.map_nil]
                    rw [hwfn]
                    exact nodup_append_singleton _ n hs12.good.sortedNd hnames2
                  sortedOK := by
                    dsimp only
                    rw [List.reverse_append]
                    simp only [List.reverse_cons, List.reverse_nil, List.nil_append,
                               List.singleton_append]
                    refine ⟨?_, hs12.good.sortedOK⟩
                    intro d hd
                    rw [List.map_reverse]
                    exact List.mem_reverse.mpr (hdepsved d hd)
                  sortedVals := by
                    intro u hu
                    dsimp only at hu
                    rcases List.mem_append.mp hu with hm | hs
                    · exact hs12.good.sortedVals u hm
                    · simp only [List.mem_singleton] at hs
                      subst hs
                      rw [hwfn]
                      exact hl }
              refine ⟨?_, List.mem_cons_self _ _⟩
              exact
                { good := hgp
                  ving := by
                    dsimp only
                    rw [hving2, List.erase_cons_head]
                  mono := fun x hx => List.mem_cons_of_mem _ (hs12.mono x hx)
                  fresh := by
                    intro x hx
                    rcases List.mem_cons.mp hx with rfl | hm
                    · exact Or.inr hving
                    · rcases hs12.fresh x hm with h1 | h2
                      · exact Or.inl h1
                      · exact Or.inr (fun hmem => h2 (List.mem_cons_of_mem _ hmem))
                  clos := by
                    intro x hx
                    rcases List.mem_cons.mp hx with rfl | hm
                    · exact Or.inr ⟨t, hl, hdepskeys⟩
                    · exact hs12.clos x hm
                  sortedExt := by
                    obtain ⟨ext, hext⟩ := hs12.sortedExt
                    exact ⟨ext ++ [t], by dsimp only; rw [hext, List.append_assoc]⟩ }
    refine ⟨hv, ?_⟩
    intro ds
    induction ds with
    | nil =>
      intro st stp hg hok
      unfold visitDepsOf at hok
      cases hok
      exact ⟨stepOk_refl tm st hg, by intro d hd; cases hd⟩
    | cons d rest ihds =>
      intro st stp hg hok
      unfold visitDepsOf at hok
      cases hv1 : visitFuel tm (f + 1) d st with
      | error e =>
        rw [hv1] at hok
        exact Except.noConfusion hok
      | ok st1 =>
        rw [hv1] at hok
        obtain ⟨hs1, hd1⟩ := hv d st st1 hg hv1
        obtain ⟨hs2, hall⟩ := ihds st1 stp hs1.good hok
        refine ⟨stepOk_trans hs1 hs2, ?_⟩
        intro x hx
        rcases List.mem_cons.mp hx with rfl | hm
        · exact hs2.mono _ hd1
        · exact hall x hm

theorem goodSt_push (tm : AList TableDiff) (st : TopoState) (n : String) (t : TableDiff)
    (hg : GoodSt tm st) (hving : n ∉ st.visiting) (hl : alistLookup tm n = some t) :
    GoodSt tm { st with visiting := n :: st.visiting } :=
  { vingNd := List.nodup_cons.mpr ⟨hving, hg.vingNd⟩
    vingKeys := by
      intro x hx
      rcases List.mem_cons.mp hx with rfl | hm
      · exact alistLookup_some_key_mem tm x t hl
      · exact hg.vingKeys x hm
    vedNd := hg.vedNd
    vedKeys := hg.vedKeys
    vedSorted := hg.vedSorted
    sortedNd := hg.sortedNd
    sortedOK := hg.sortedOK
    sortedVals := hg.sortedVals }

/-- The visiting stack can never exhaust the key set plus one: with a
duplicate-free visiting stack of keys, fuel at least the number of keys
plus one minus the stack depth never runs out. -/
theorem visiting_bound (tm : AList TableDiff) (st : TopoState) (hg : GoodSt tm st) :
    st.visiting.length ≤ tm.length := by
  have hsub : st.visiting ⊆ alistKeys tm := fun x hx => hg.vingKeys x hx
  have hlen : st.visiting.length ≤ (alistKeys tm).length :=
    (List.subperm_of_subset hg.vingNd hsub).length_le
  simpa [alistKeys] using hlen

/-- Progress of the DFS: on a closed, acyclic table map, a visit with
sufficient fuel of a key whose visiting stack is a parent chain always
succeeds. -/
theorem visit_progress (tm : AList TableDiff) (hwf : WFtm tm)
    (hclos : ClosedTm tm)
    (hacyc : ∀ n, ¬ Relation.TransGen (edgeTm tm) n n) : ∀ fuel : Nat,
    (∀ n st, GoodSt tm st → tm.length + 1 ≤ fuel + st.visiting.length →
       ChainTo tm st.visiting n → n ∈ alistKeys tm →
       ∃ stp, visitFuel tm fuel n st = Except.ok stp) ∧
    (∀ ds st, GoodSt tm st → tm.length + 1 ≤ fuel + st.visiting.length →
       (∀ d ∈ ds, ChainTo tm st.visiting d ∧ d ∈ alistKeys tm) →
       ∃ stp, visitDepsOf (visitFuel tm fuel) ds st = Except.ok stp) := by
  intro fuel
  induction fuel with
  | zero =>
    have hbound : ∀ st : TopoState, GoodSt tm st →
        tm.length + 1 ≤ 0 + st.visiting.length → False := by
      intro st hg hb
      have := visiting_bound tm st hg
      omega
    constructor
    · intro n st hg hb _ _
      exact (hbound st hg hb).elim
    · intro ds st hg hb hds
      cases ds with
      | nil => exact ⟨st, rfl⟩
      | cons d rest => exact (hbound st hg hb).elim
  | succ f ih =>
    obtain ⟨ihv, ihd⟩ := ih
    have hv : ∀ n st, GoodSt tm st → tm.length + 1 ≤ (f + 1) + st.visiting.length →
        ChainTo tm st.visiting n → n ∈ alistKeys tm →
        ∃ stp, visitFuel tm (f + 1) n st = Except.ok stp := by
      intro n st hg hb hchain hnk
      unfold visitFuel
      by_cases hvis : n ∈ st.visited
      · rw [if_pos hvis]; exact ⟨st, rfl⟩
      · rw [if_neg hvis]
        by_cases hving : n ∈ st.visiting
        · exact ((hacyc n) (chainTo_cycle tm st.visiting n n hchain hving)).elim
        · rw [if_neg hving]
          dsimp only
          obtain ⟨t, hl⟩ := alistLookup_isSome_of_key_mem tm n hnk
          rw [hl]
          dsimp only
          have hg1 := goodSt_push tm st n t hg hving hl
          obtain ⟨st2, h2⟩ := ihd (depTargets t) { st with visiting := n :: st.visiting }
            hg1
            (by dsimp only; rw [List.length_cons]; omega)
            (by
              intro d hd
              exact ⟨⟨⟨t, hl, hd⟩, hchain⟩, hclos n t hl d hd⟩)
          rw [h2]
          exact ⟨_, rfl⟩
    refine ⟨hv, ?_⟩
    intro ds
    induction ds with
    | nil =>
      intro st hg hb hds
      exact ⟨st, rfl⟩
    | cons d rest ihds =>
      intro st hg hb hds
      obtain ⟨st1, h1⟩ := hv d st hg hb (hds d (List.mem_cons_self _ _)).1
        (hds d (List.mem_cons_self _ _)).2
      have hs1 := ((visit_preserve tm hwf (f + 1)).1 d st st1 hg h1).1
      obtain ⟨st2, h2⟩ := ihds st1 hs1.good
        (by rw [hs1.ving]; exact hb)
        (by
          intro d2 hd2
          rw [hs1.ving]
          exact hds d2 (List.mem_cons_of_mem _ hd2))
      refine ⟨st2, ?_⟩
      unfold visitDepsOf
      rw [h1]
      exact h2

/-- A successful visit never finishes a name that lies on a reference
cycle, and keeps the visited set cycle-free. -/
theorem visit_no_cycle (tm : AList TableDiff) : ∀ fuel : Nat,
    (∀ n st stp, (∀ x ∈ st.visited, ¬ Relation.TransGen (edgeTm tm) x x) →
       visitFuel tm fuel n st = Except.ok stp →
       ¬ Relation.TransGen (edgeTm tm) n n ∧
       (∀ x ∈ stp.visited, ¬ Relation.TransGen (edgeTm tm) x x)) ∧
    (∀ ds st stp, (∀ x ∈ st.visited, ¬ Relation.TransGen (edgeTm tm) x x) →
       visitDepsOf (visitFuel tm fuel) ds st = Except.ok stp →
       (∀ d ∈ ds, ¬ Relation.TransGen (edgeTm tm) d d) ∧
       (∀ x ∈ stp.visited, ¬ Relation.TransGen (edgeTm tm) x x)) := by
  intro fuel
  induction fuel with
  | zero =>
    constructor
    · intro n st stp _ hok
      exact Except.noConfusion hok
    · intro ds st stp hnc hok
      cases ds with
      | nil =>
        unfold visitDepsOf at hok
        cases hok
        exact ⟨(by intro d hd; cases hd), hnc⟩
      | cons d rest =>
        unfold visitDepsOf at hok
        exact Except.noConfusion hok
  | succ f ih =>
    obtain ⟨ihv, ihd⟩ := ih
    have hv : ∀ n st stp, (∀ x ∈ st.visited, ¬ Relation.TransGen (edgeTm tm) x x) →
        visitFuel tm (f + 1) n st = Except.ok stp →
        ¬ Relation.TransGen (edgeTm tm) n n ∧
        (∀ x ∈ stp.visited, ¬ Relation.TransGen (edgeTm tm) x x) := by
      intro n st stp hnc hok
      unfold visitFuel at hok
      by_cases hvis : n ∈ st.visited
      · rw [if_pos hvis] at hok
        cases hok
        exact ⟨hnc n hvis, hnc⟩
      · rw [if_neg hvis] at hok
        by_cases hving : n ∈ st.visiting
        · rw [if_pos hving] at hok
          exact Except.noConfusion hok
        · rw [if_neg hving] at hok
          dsimp only at hok
          cases hl : alistLookup tm n with
          | none =>
            rw [hl] at hok
            exact Except.noConfusion hok
          | some t =>
            rw [hl] at hok
            dsimp only at hok
            cases hdeps : visitDepsOf (visitFuel tm f) (depTargets t)
                { st with visiting := n :: st.visiting } with
            | error e =>
              rw [hdeps] at hok
              exact Except.noConfusion hok
            | ok st2 =>
              rw [hdeps] at hok
              cases hok
              obtain ⟨hdepsnc, hnc2⟩ :=
                ihd (depTargets t) { st with visiting := n :: st.visiting } st2 hnc hdeps
              have hncn : ¬ Relation.TransGen (edgeTm tm) n n := by
                intro hcyc
                obtain ⟨c, hedge, hrtg⟩ := (Relation.TransGen.head'_iff).mp hcyc
                have hmem : c ∈ depTargets t := by
                  obtain ⟨t2, hl2, hm⟩ := hedge
                  rw [hl] at hl2
                  cases hl2
                  exact hm
                exact hdepsnc c hmem (Relation.TransGen.tail' hrtg hedge)
              refine ⟨hncn, ?_⟩
              intro x hx
              rcases List.mem_cons.mp hx with rfl | hm
              · exact hncn
              · exact hnc2 x hm
    refine ⟨hv, ?_⟩
    intro ds
    induction ds with
    | nil =>
      intro st stp hnc hok
      unfold visitDepsOf at hok
      cases hok
      exact ⟨(by intro d hd; cases hd), hnc⟩
    | cons d rest ihds =>
      intro st stp hnc hok
      unfold visitDepsOf at hok
      cases hv1 : visitFuel tm (f + 1) d st with
      | error e =>
        rw [hv1] at hok
        exact Except.noConfusion hok
      | ok st1 =>
        rw [hv1] at hok
        obtain ⟨hd1, hnc1⟩ := hv d st st1 hnc hv1
        obtain ⟨hrest, hncp⟩ := ihds st1 stp hnc1 hok
        refine ⟨?_, hncp⟩
        intro x hx
        rcases List.mem_cons.mp hx with rfl | hm
        · exact hd1
        · exact hrest x hm

/-- Error classification of the DFS on a closed table map: with a parent
chain invariant, sufficient fuel and a key argument, the only possible
error is the circular-dependency error, and the table it names lies on a
reference cycle. -/
theorem visit_err_class (tm : AList TableDiff) (hwf : WFtm tm)
    (hclos : ClosedTm tm) : ∀ fuel : Nat,
    (∀ n st e, GoodSt tm st → tm.length + 1 ≤ fuel + st.visiting.length →
       ChainTo tm st.visiting n → n ∈ alistKeys tm →
       visitFuel tm fuel n st = Except.error e →
       ∃ X, e = "circular dependency detected at table " ++ X ∧
            Relation.TransGen (edgeTm tm) X X) ∧
    (∀ ds st e, GoodSt tm st → tm.length + 1 ≤ fuel + st.visiting.length →
       (∀ d ∈ ds, ChainTo tm st.visiting d ∧ d ∈ alistKeys tm) →
       visitDepsOf (visitFuel tm fuel) ds st = Except.error e →
       ∃ X, e = "circular dependency detected at table " ++ X ∧
            Relation.TransGen (edgeTm tm) X X) := by
  intro fuel
  induction fuel with
  | zero =>
    have hbound : ∀ st : TopoState, GoodSt tm st →
        tm.length + 1 ≤ 0 + st.visiting.length → False := by
      intro st hg hb
      have := visiting_bound tm st hg
      omega
    constructor
    · intro n st e hg hb _ _ _
      exact (hbound st hg hb).elim
    · intro ds st e hg hb _ _
      exact (hbound st hg hb).elim
  | succ f ih =>
    obtain ⟨ihv, ihd⟩ := ih
    have hv : ∀ n st e, GoodSt tm st → tm.length + 1 ≤ (f + 1) + st.visiting.length →
        ChainTo tm st.visiting n → n ∈ alistKeys tm →
        visitFuel tm (f + 1) n st = Except.error e →
        ∃ X, e = "circular dependency detected at table " ++ X ∧
             Relation.TransGen (edgeTm tm) X X := by
      intro n st e hg hb hchain hnk hok
      unfold visitFuel at hok
      by_cases hvis : n ∈ st.visited
      · rw [if_pos hvis] at hok
        exact Except.noConfusion hok
      · rw [if_neg hvis] at hok
        by_cases hving : n ∈ st.visiting
        · rw [if_pos hving] at hok
          refine ⟨n, ?_, chainTo_cycle tm st.visiting n n hchain hving⟩
          exact (Except.error.inj hok).symm
        · rw [if_neg hving] at hok
          dsimp only at hok
          obtain ⟨t, hl⟩ := alistLookup_isSome_of_key_mem tm n hnk
          rw [hl] at hok
          dsimp only at hok
          cases hdeps : visitDepsOf (visitFuel tm f) (depTargets t)
              { st with visiting := n :: st.visiting } with
          | error e2 =>
            rw [hdeps] at hok
            have he : e2 = e := Except.error.inj hok
            subst he
            refine ihd (depTargets t) _ e2 (goodSt_push tm st n t hg hving hl)
              (by dsimp only; rw [List.length_cons]; omega) ?_ hdeps
            intro d hd
            exact ⟨⟨⟨t, hl, hd⟩, hchain⟩, hclos n t hl d hd⟩
          | ok st2 =>
            rw [hdeps] at hok
            exact Except.noConfusion hok
    refine ⟨hv, ?_⟩
    intro ds
    induction ds with
    | nil =>
      intro st e hg hb hds hok
      unfold visitDepsOf at hok
      exact Except.noConfusion hok
    | cons d rest ihds =>
      intro st e hg hb hds hok
      unfold visitDepsOf at hok
      cases hv1 : visitFuel tm (f + 1) d st with
      | error e2 =>
        rw [hv1] at hok
        have he : e2 = e := Except.error.inj hok
        subst he
        exact hv d st e2 hg hb (hds d (List.mem_cons_self _ _)).1
          (hds d (List.mem_cons_self _ _)).2 hv1
      | ok st1 =>
        rw [hv1] at hok
        have hs1 := ((visit_preserve tm hwf (f + 1)).1 d st st1 hg hv1).1
        refine ihds st1 e hs1.good (by rw [hs1.ving]; exact hb) ?_ hok
        intro d2 hd2
        rw [hs1.ving]
        exact hds d2 (List.mem_cons_of_mem _ hd2)

/-- The initial DFS state satisfies the invariant. -/
theorem goodSt_init (tm : AList TableDiff) : GoodSt tm ⟨[], [], []⟩ :=
  { vingNd := List.nodup_nil
    vingKeys := by intro x hx; cases hx
    vedNd := List.nodup_nil
    vedKeys := by intro x hx; cases hx
    vedSorted := by intro x; simp
    sortedNd := List.nodup_nil
    sortedOK := trivial
    sortedVals := by intro t ht; cases ht }

theorem closedTm_of_closedTables (tables : List TableDiff) (h : ClosedTables tables) :
    ClosedTm (buildTableMap tables []) := by
  intro k t hl d hd
  have hmem := alistLookup_some_mem _ k t hl
  have htl : t ∈ tables := buildTableMap_val_mem tables _ hmem
  rcases List.mem_map.mp (h t htl d hd) with ⟨u, hu, hue⟩
  rw [← hue]
  exact buildTableMap_key_of_mem tables [] u hu

theorem topo_top_deps (tables : List TableDiff) :
    ∀ d ∈ tables.map (fun t => t.schema.table),
      ChainTo (buildTableMap tables []) [] d ∧ d ∈ alistKeys (buildTableMap tables []) := by
  intro d hd
  rcases List.mem_map.mp hd with ⟨u, hu, hue⟩
  exact ⟨trivial, hue ▸ buildTableMap_key_of_mem tables [] u hu⟩

theorem topo_kbound (tables : List TableDiff) :
    (buildTableMap tables []).length + 1 ≤
      (tables.length + 1) + (TopoState.mk [] [] []).visiting.length := by
  have := buildTableMap_length tables []
  simp only [List.length_nil, Nat.zero_add] at this
  simp only [List.length_nil]
  omega

/-- C2 (amended).  Topological validity: for tables with pairwise-distinct
names, no nil foreign-key schema pointers, all referenced tables present
in the list, and an acyclic reference graph, topoSortTables succeeds and
returns a permutation of the tables in which every table referenced by a
foreign key appears before the table that references it; self-references
are excluded from depTargets and impose no constraint. -/
theorem C2_topological_validity (tables : List TableDiff)
    (hnn : NoNilFKSchema tables)
    (hnod : (tables.map (fun t => t.schema.table)).Nodup)
    (hclosed : ClosedTables tables)
    (hacyc : AcyclicTables tables) :
    ∃ sorted, topoSortTables tables = Except.ok sorted ∧ sorted.Perm tables ∧
      ∀ pre t suf, sorted = pre ++ t :: suf →
        ∀ d ∈ depTargets t, d ∈ pre.map (fun u => u.schema.table) := by
  have _hnn := hnn
  have hwf := buildTableMap_wf tables
  have hclostm := closedTm_of_closedTables tables hclosed
  obtain ⟨stf, hok⟩ := (visit_progress (buildTableMap tables []) hwf hclostm
      (fun n => hacyc n) (tables.length + 1)).2
      (tables.map (fun t => t.schema.table)) ⟨[], [], []⟩ (goodSt_init _)
      (topo_kbound tables) (topo_top_deps tables)
  obtain ⟨hstep, hall⟩ := (visit_preserve (buildTableMap tables []) hwf (tables.length + 1)).2
      (tables.map (fun t => t.schema.table)) ⟨[], [], []⟩ stf (goodSt_init _) hok
  refine ⟨stf.sorted, ?_, ?_, ?_⟩
  · unfold topoSortTables
    dsimp only
    rw [hok]
  · have hsortsub : ∀ t2 ∈ stf.sorted, t2 ∈ tables := by
      intro t2 ht2
      exact buildTableMap_val_mem tables _
        (alistLookup_some_mem _ _ _ (hstep.good.sortedVals t2 ht2))
    have htabsub : ∀ u ∈ tables, u ∈ stf.sorted := by
      intro u hu
      have hv : u.schema.table ∈ stf.visited := hall _ (List.mem_map.mpr ⟨u, hu, rfl⟩)
      have hn : u.schema.table ∈ stf.sorted.map (fun t => t.schema.table) :=
        (hstep.good.vedSorted _).mp hv
      rcases List.mem_map.mp hn with ⟨t2, ht2, hte⟩
      have h1 : alistLookup (buildTableMap tables []) t2.schema.table = some t2 :=
        hstep.good.sortedVals t2 ht2
      have h2 : alistLookup (buildTableMap tables []) u.schema.table = some u :=
        buildTableMap_lookup_self tables hnod u hu
      rw [hte] at h1
      rw [h1] at h2
      cases h2
      exact ht2
    have hnodS : stf.sorted.Nodup := List.Nodup.of_map _ hstep.good.sortedNd
    have hnodT : tables.Nodup := List.Nodup.of_map _ hnod
    rw [List.perm_ext_iff_of_nodup hnodS hnodT]
    intro a
    exact ⟨fun h => hsortsub a h, fun h => htabsub a h⟩
  · intro pre t suf he d hd
    exact depsBeforeRev_order stf.sorted hstep.good.sortedOK pre suf t he d hd

/-- Counterexample to C2 as stated: one table (orders) whose foreign key
references an absent table (users).  The reference graph is acyclic, yet
the topological sort fails with a not-found error instead of succeeding. -/
theorem C2_counterexample :
    AcyclicTables danglingRefTables ∧
    topoSortTables danglingRefTables = Except.error "table users not found" := by
  constructor
  · have hedge : ∀ a b, tableEdge danglingRefTables a b → a = "orders" ∧ b = "users" := by
      intro a b hab
      obtain ⟨t, hl, hd⟩ := hab
      have hmem : (a, t) ∈ buildTableMap danglingRefTables [] :=
        alistLookup_some_mem _ a t hl
      have htm : buildTableMap danglingRefTables [] = [("orders", ordersCreateEx)] := rfl
      rw [htm] at hmem
      simp only [List.mem_singleton] at hmem
      have ha : a = "orders" := congrArg Prod.fst hmem
      have ht : t = ordersCreateEx := congrArg Prod.snd hmem
      subst ht
      refine ⟨ha, ?_⟩
      have hdep : depTargets ordersCreateEx = ["users"] := rfl
      rw [hdep] at hd
      simpa using hd
    have haux : ∀ a b, Relation.TransGen (tableEdge danglingRefTables) a b →
        a = "orders" ∧ b = "users" := by
      intro a b h
      induction h with
      | single h1 => exact hedge _ _ h1
      | tail h1 h2 ih => exact ⟨ih.1, (hedge _ _ h2).2⟩
    intro n hcyc
    obtain ⟨h1, h2⟩ := haux n n hcyc
    rw [h1] at h2
    exact absurd h2 (by decide)
  · rfl

/-- Witness for the amended C2 at a concrete input with a self-reference
(categories.parent_id references categories) and a cross reference
(orders.user_id references users): the sort succeeds. -/
theorem C2_witness :
    NoNilFKSchema [categoriesSelfRefEx, ordersCreateEx, usersCreateEx] ∧
    (∃ sorted,
      topoSortTables [categoriesSelfRefEx, ordersCreateEx, usersCreateEx] =
        Except.ok sorted ∧
      sorted.Perm [categoriesSelfRefEx, ordersCreateEx, usersCreateEx] ∧
      ∀ pre t suf, sorted = pre ++ t :: suf →
        ∀ d ∈ depTargets t, d ∈ pre.map (fun u => u.schema.table)) := by
  refine ⟨by unfold NoNilFKSchema; decide, ?_⟩
  refine C2_topological_validity _ (by unfold NoNilFKSchema; decide) (by decide)
    (by unfold ClosedTables; decide) ?_
  have hedge : ∀ a b, tableEdge [categoriesSelfRefEx, ordersCreateEx, usersCreateEx] a b →
      a = "orders" ∧ b = "users" := by
    intro a b hab
    obtain ⟨t, hl, hd⟩ := hab
    have hmem := alistLookup_some_mem _ a t hl
    have htm : buildTableMap [categoriesSelfRefEx, ordersCreateEx, usersCreateEx] [] =
        [("categories", categoriesSelfRefEx), ("orders", ordersCreateEx),
         ("users", usersCreateEx)] := rfl
    rw [htm] at hmem
    simp only [List.mem_cons, List.not_mem_nil, or_false] at hmem
    rcases hmem with h1 | h1 | h1
    · have ht : t = categoriesSelfRefEx := congrArg Prod.snd h1
      subst ht
      have : depTargets categoriesSelfRefEx = [] := rfl
      rw [this] at hd
      cases hd
    · have ha : a = "orders" := congrArg Prod.fst h1
      have ht : t = ordersCreateEx := congrArg Prod.snd h1
      subst ht
      have hdep : depTargets ordersCreateEx = ["users"] := rfl
      rw [hdep] at hd
      exact ⟨ha, by simpa using hd⟩
    · have ht : t = usersCreateEx := congrArg Prod.snd h1
      subst ht
      have : depTargets usersCreateEx = [] := rfl
      rw [this] at hd
      cases hd
  have haux : ∀ a b,
      Relation.TransGen (tableEdge [categoriesSelfRefEx, ordersCreateEx, usersCreateEx]) a b →
      a = "orders" ∧ b = "users" := by
    intro a b h
    induction h with
    | single h1 => exact hedge _ _ h1
    | tail h1 h2 ih => exact ⟨ih.1, (hedge _ _ h2).2⟩
  intro n hcyc
  obtain ⟨h1, h2⟩ := haux n n hcyc
  rw [h1] at h2
  exact absurd h2 (by decide)

/-- C3 (amended).  Cycle detection: whenever the foreign-key reference
graph of the tables contains a cycle (necessarily of length at least two
among distinct tables, since self-references are excluded), the
topological sort returns an error and never a silently partial or
incorrect order; when moreover every referenced table is present in the
list, the error is the circular-dependency error and the table it names
lies on a reference cycle. -/
theorem C3_cycle_detection (tables : List TableDiff)
    (hnn : NoNilFKSchema tables)
    (hcyc : ∃ n, OnCycle tables n) :
    (∃ e, topoSortTables tables = Except.error e) ∧
    (ClosedTables tables →
      ∃ X, topoSortTables tables =
             Except.error ("circular dependency detected at table " ++ X) ∧
           OnCycle tables X) := by
  have _hnn := hnn
  obtain ⟨n0, hn0⟩ := hcyc
  have hnotok : ∀ res, topoSortTables tables ≠ Except.ok res := by
    intro res hok
    unfold topoSortTables at hok
    dsimp only at hok
    cases hd : visitDepsOf (visitFuel (buildTableMap tables []) (tables.length + 1))
        (tables.map (fun t => t.schema.table)) ⟨[], [], []⟩ with
    | error e =>
      rw [hd] at hok
      exact Except.noConfusion hok
    | ok stf =>
      obtain ⟨hds, _⟩ := (visit_no_cycle (buildTableMap tables []) (tables.length + 1)).2
        _ _ stf (by intro x hx; cases hx) hd
      obtain ⟨c, hedge, _⟩ := (Relation.TransGen.head'_iff).mp hn0
      obtain ⟨t, hl, _⟩ := hedge
      have hk : n0 ∈ alistKeys (buildTableMap tables []) :=
        alistLookup_some_key_mem _ n0 t hl
      exact hds n0 (buildTableMap_keys_sub tables n0 hk) hn0
  constructor
  · cases hres : topoSortTables tables with
    | error e => exact ⟨e, rfl⟩
    | ok res => exact absurd hres (hnotok res)
  · intro hclosed
    have hwf := buildTableMap_wf tables
    have hclostm := closedTm_of_closedTables tables hclosed
    cases hd : visitDepsOf (visitFuel (buildTableMap tables []) (tables.length + 1))
        (tables.map (fun t => t.schema.table)) ⟨[], [], []⟩ with
    | ok stf =>
      exfalso
      refine hnotok stf.sorted ?_
      unfold topoSortTables
      dsimp only
      rw [hd]
    | error e =>
      obtain ⟨X, hX1, hX2⟩ := (visit_err_class (buildTableMap tables []) hwf hclostm
        (tables.length + 1)).2 _ _ e (goodSt_init _) (topo_kbound tables)
        (topo_top_deps tables) hd
      refine ⟨X, ?_, hX2⟩
      unfold topoSortTables
      dsimp only
      rw [hd, hX1]

/-- Counterexample to C3 as stated: the reference graph of the input has
the 2-cycle alpha-beta among distinct present tables, yet the sort, which
reaches the dangling carts reference first, fails with an error naming
ghost — a table that lies on no cycle — rather than a table of the
cycle. -/
theorem C3_counterexample :
    tableEdge cycleWithDanglingTables "alpha" "beta" ∧
    tableEdge cycleWithDanglingTables "beta" "alpha" ∧
    topoSortTables cycleWithDanglingTables = Except.error "table ghost not found" ∧
    ¬ OnCycle cycleWithDanglingTables "ghost" := by
  refine ⟨⟨alphaTableEx, rfl, by decide⟩, ⟨betaTableEx, rfl, by decide⟩, rfl, ?_⟩
  intro hcyc
  obtain ⟨c, hedge, _⟩ := (Relation.TransGen.head'_iff).mp hcyc
  obtain ⟨t, hl, _⟩ := hedge
  have hmem := alistLookup_some_mem _ _ t hl
  have htm : buildTableMap cycleWithDanglingTables [] =
      [("carts", cartsTableEx), ("alpha", alphaTableEx), ("beta", betaTableEx)] := rfl
  rw [htm] at hmem
  simp only [List.mem_cons, List.not_mem_nil, or_false] at hmem
  rcases hmem with h1 | h1 | h1
  · have h2 : "ghost" = "carts" := congrArg Prod.fst h1
    exact absurd h2 (by decide)
  · have h2 : "ghost" = "alpha" := congrArg Prod.fst h1
    exact absurd h2 (by decide)
  · have h2 : "ghost" = "beta" := congrArg Prod.fst h1
    exact absurd h2 (by decide)

/-- Witness for the amended C3 at the closed 2-cycle alpha-beta: the sort
errors, and under closedness the error is the circular-dependency error
naming a table on the cycle. -/
theorem C3_witness :
    (∃ e, topoSortTables pureCycleTables = Except.error e) ∧
    (∃ X, topoSortTables pureCycleTables =
            Except.error ("circular dependency detected at table " ++ X) ∧
          OnCycle pureCycleTables X) := by
  have heab : tableEdge pureCycleTables "alpha" "beta" := ⟨alphaTableEx, rfl, by decide⟩
  have heba : tableEdge pureCycleTables "beta" "alpha" := ⟨betaTableEx, rfl, by decide⟩
  have h := C3_cycle_detection pureCycleTables (by unfold NoNilFKSchema; decide)
    ⟨"alpha", Relation.TransGen.tail (Relation.TransGen.single heab) heba⟩
  exact ⟨h.1, h.2 (by unfold ClosedTables; decide)⟩

/- ------------------------------------------------------------------
   Validation lemmas (C9)
   ------------------------------------------------------------------ -/

theorem validateColumns_seen (tname : String) (cols : List Field) :
    ∀ init out, validateColumns tname cols init = Except.ok out →
      ∀ x, x ∈ out ↔ (x ∈ init ∨ x ∈ cols.map (fun c => c.dbName)) := by
  induction cols with
  | nil =>
    intro init out h
    unfold validateColumns at h
    cases h
    simp
  | cons c cs ih =>
    intro init out h
    unfold validateColumns at h
    split at h
    · exact Except.noConfusion h
    · split at h
      · exact Except.noConfusion h
      · split at h
        · exact Except.noConfusion h
        · intro x
          rw [ih _ _ h x]
          simp only [List.map_cons, List.mem_cons]
          tauto

theorem contains_false_of_not_mem (l : List String) (a : String) (h : a ∉ l) :
    l.contains a = false := by
  cases hc : l.contains a with
  | false => rfl
  | true => exact absurd (List.elem_iff.mp hc) h

theorem validateFKs_err (tname : String) (fks : List Relationship) (seen : List String)
    (fk : Relationship) (hfk : fk ∈ fks) (f : Field) (hf : fk.field = some f)
    (hns : f.dbName ∉ seen) :
    ∃ e, validateFKs tname fks seen = Except.error e := by
  induction fks with
  | nil => cases hfk
  | cons g gs ih =>
    rcases List.mem_cons.mp hfk with rfl | hm
    · refine ⟨"foreign key column " ++ f.dbName ++ " does not exist in table " ++ tname, ?_⟩
      unfold validateFKs
      rw [hf]
      dsimp only
      rw [contains_false_of_not_mem seen f.dbName hns]
      rfl
    · obtain ⟨e, he⟩ := ih hm
      cases hg : g.field with
      | none =>
        refine ⟨e, ?_⟩
        unfold validateFKs
        rw [hg]
        exact he
      | some f2 =>
        cases hb : seen.contains f2.dbName with
        | true =>
          refine ⟨e, ?_⟩
          unfold validateFKs
          rw [hg]
          dsimp only
          rw [hb]
          exact he
        | false =>
          refine ⟨"foreign key column " ++ f2.dbName ++ " does not exist in table " ++ tname, ?_⟩
          unfold validateFKs
          rw [hg]
          dsimp only
          rw [hb]
          rfl

theorem validateTableCreate_err (t : TableDiff) (fk : Relationship)
    (hfk : fk ∈ t.foreignKeysToAdd) (f : Field) (hf : fk.field = some f)
    (hnm : f.dbName ∉ t.fieldsToAdd.map (fun c => c.dbName)) :
    ∃ e, validateTableCreate t = Except.error e := by
  unfold validateTableCreate
  by_cases hn : (t.schema.table == "") = true
  · exact ⟨"table name cannot be empty", by rw [if_pos hn]⟩
  · rw [if_neg hn]
    cases hcols : validateColumns t.schema.table t.fieldsToAdd [] with
    | error e => exact ⟨e, rfl⟩
    | ok seen =>
      have hseen : f.dbName ∉ seen := by
        intro hmem
        rcases (validateColumns_seen t.schema.table t.fieldsToAdd [] seen hcols f.dbName).mp
          hmem with h1 | h1
        · cases h1
        · exact hnm h1
      obtain ⟨e, he⟩ := validateFKs_err t.schema.table t.foreignKeysToAdd seen fk hfk f hf hseen
      refine ⟨e, ?_⟩
      dsimp only
      rw [he]

theorem validateTables_err (l : List TableDiff) (t : TableDiff) (ht : t ∈ l)
    (herr : ∃ e, validateTableCreate t = Except.error e) :
    ∃ e, validateTables l = Except.error e := by
  induction l with
  | nil => cases ht
  | cons u us ih =>
    rcases List.mem_cons.mp ht with rfl | hm
    · obtain ⟨e, he⟩ := herr
      exact ⟨e, by unfold validateTables; rw [he]⟩
    · cases hu : validateTableCreate u with
      | error e => exact ⟨e, by unfold validateTables; rw [hu]⟩
      | ok a =>
        obtain ⟨e, he⟩ := ih hm
        refine ⟨e, ?_⟩
        unfold validateTables
        rw [hu]
        exact he

/-- If some listed table has an ordering-relevant dependency outside the
key set (a dangling reference), the topological sort cannot succeed. -/
theorem topo_not_ok_of_dangling (tables : List TableDiff)
    (hnod : (tables.map (fun u => u.schema.table)).Nodup)
    (t : TableDiff) (ht : t ∈ tables) (d0 : String) (hd0 : d0 ∈ depTargets t)
    (hnk : d0 ∉ alistKeys (buildTableMap tables [])) :
    ∀ res, topoSortTables tables ≠ Except.ok res := by
  intro res hok
  unfold topoSortTables at hok
  dsimp only at hok
  cases hd : visitDepsOf (visitFuel (buildTableMap tables []) (tables.length + 1))
      (tables.map (fun u => u.schema.table)) ⟨[], [], []⟩ with
  | error e =>
    rw [hd] at hok
    exact Except.noConfusion hok
  | ok stf =>
    obtain ⟨hstep, hall⟩ := (visit_preserve (buildTableMap tables [])
      (buildTableMap_wf tables) (tables.length + 1)).2 _ _ stf (goodSt_init _) hd
    have hv : t.schema.table ∈ stf.visited := hall _ (List.mem_map.mpr ⟨t, ht, rfl⟩)
    rcases hstep.clos _ hv with h1 | ⟨u, hl, hdeps⟩
    · cases h1
    · rw [buildTableMap_lookup_self tables hnod t ht] at hl
      cases hl
      exact hnk (hdeps d0 hd0)

/-- C9.  Foreign-key reference validation: if some table-to-create (with
pairwise-distinct created-table names) has an added foreign key whose
owning column is absent from that table's added columns, or whose named
referenced table is not among the tables being created, CreateMigration
fails with an error — in the first case from validateSchemaDiff, in the
second from the topological sort inside up-SQL generation — before any
SQL is written to a migration file. -/
theorem C9_fk_reference_validation (g : Generator) (d : SchemaDiff) (t : TableDiff)
    (fk : Relationship) (name : String)
    (hg : g.schemaDiff = some d)
    (ht : t ∈ d.tablesToCreate) (hfk : fk ∈ t.foreignKeysToAdd)
    (hnod : (d.tablesToCreate.map (fun u => u.schema.table)).Nodup)
    (hbad : (∃ f, fk.field = some f ∧ f.dbName ∉ t.fieldsToAdd.map (fun c => c.dbName)) ∨
            (∃ s, fk.schemaRef = some s ∧ s.table ≠ "" ∧
               s.table ∉ d.tablesToCreate.map (fun u => u.schema.table))) :
    ∃ e, createMigration g name = Except.error e := by
  unfold createMigration
  rw [hg]
  dsimp only
  have hch : hasChanges d = true := by
    unfold hasChanges
    have hne : d.tablesToCreate.isEmpty = false := by
      cases hdc : d.tablesToCreate with
      | nil => rw [hdc] at ht; cases ht
      | cons a l => rfl
    rw [hne]
    rfl
  rw [hch]
  rcases hbad with ⟨f, hf, hnm⟩ | ⟨s, hs, hne, hnmem⟩
  · obtain ⟨e, he⟩ := validateTables_err d.tablesToCreate t ht
      (validateTableCreate_err t fk hfk f hf hnm)
    have hv : validateSchemaDiff (some d) = Except.error e := by
      unfold validateSchemaDiff
      exact he
    rw [hv]
    exact ⟨_, rfl⟩
  · cases hval : validateSchemaDiff (some d) with
    | error e =>
      exact ⟨_, rfl⟩
    | ok a =>
      have hd0 : s.table ∈ depTargets t := by
        unfold depTargets
        refine List.mem_filterMap.mpr ⟨fk, hfk, ?_⟩
        rw [hs]
        have hne2 : s.table ≠ t.schema.table := by
          intro he
          exact hnmem (he ▸ List.mem_map.mpr ⟨t, ht, rfl⟩)
        simp [hne, hne2]
      have hkn : s.table ∉ alistKeys (buildTableMap d.tablesToCreate []) := by
        intro hk
        exact hnmem (buildTableMap_keys_sub _ _ hk)
      have hnotok := topo_not_ok_of_dangling d.tablesToCreate hnod t ht s.table hd0 hkn
      cases htp : topoSortTables d.tablesToCreate with
      | ok res => exact absurd htp (hnotok res)
      | error e =>
        have hup : generateUpSQLStmts d = Except.error e := by
          unfold generateUpSQLStmts
          rw [htp]
        rw [hup]
        exact ⟨e, rfl⟩

/-- Counterexample to C9 as stated: the single created table carries an
added foreign key whose referenced table (the empty name) is not among
the tables being created, yet CreateMigration succeeds and produces SQL
referencing the nameless table instead of failing. -/
theorem C9_counterexample :
    c9EmptyRefTable ∈ c9EmptyRefDiff.tablesToCreate ∧
    (c9EmptyRefTable.foreignKeysToAdd.map (fun fk => fk.schemaRef) =
      [some { table := "" }]) ∧
    "" ∉ c9EmptyRefDiff.tablesToCreate.map (fun u => u.schema.table) ∧
    createMigration { migrationsDir := "migrations", schemaDiff := some c9EmptyRefDiff }
        "add_orders" =
      Except.ok
        { name := "add_orders"
          upSQL := "CREATE TABLE \"orders\" (\n    id SERIAL PRIMARY KEY,\n    CONSTRAINT fk_orders_id_fkey FOREIGN KEY (\"id\") REFERENCES \"\"(id) ON DELETE CASCADE\n);"
          downSQL := "DROP TABLE IF EXISTS \"orders\";" } := by
  exact ⟨List.mem_cons_self _ _, rfl, by decide, rfl⟩

/-- Witness for C9, case of a referenced table missing from the creation
run: orders references users but only orders is created. -/
theorem C9_witness :
    ∃ e, createMigration c9GenEx "missing_fk_migration" = Except.error e := by
  refine C9_fk_reference_validation c9GenEx c9DiffEx ordersCreateEx ordersFKEx
    "missing_fk_migration" rfl (by decide) (by decide) (by decide) ?_
  exact Or.inr ⟨{ table := "users" }, rfl, by decide, by decide⟩

/-- Witness for C4: a concrete diff listing orders before users; the sort
places users first, the up statements create users then orders, and the
down statements drop orders then users. -/
theorem C4_witness :
    topoSortTables createPairDiff.tablesToCreate =
      Except.ok [usersCreateEx, ordersCreateEx] ∧
    generateUpSQLStmts createPairDiff =
      Except.ok ([usersCreateEx, ordersCreateEx].map generateCreateTableSQL ++
                 createPairDiff.tablesToModify.flatMap generateModifyTableSQL) ∧
    generateDownSQLStmts createPairDiff =
      downIndexDropStmts createPairDiff ++ downFKDropStmts createPairDiff ++
      ([usersCreateEx, ordersCreateEx].map
        (fun t => "DROP TABLE IF EXISTS " ++ quoteIdentifier t.schema.table ++ ";")).reverse := by
  refine ⟨rfl, ?_⟩
  exact C4_create_drop_symmetry createPairDiff [usersCreateEx, ordersCreateEx] rfl

end GormMigrate
